import Mathlib

/-!
Verification of the havJSON single-file JSON/BSON library.

This file is a shallow embedding, in Lean 4, of the core of `havJSON.hpp`
(a single-file C++ JSON library with BSON support), together with theorems
checking the library's natural-language specification against the code.

Modelling conventions:

* C++ `std::string` values (both the raw input streams and the decoded
  payloads) are byte sequences, modelled as `List Nat` with each element a
  byte value `< 256`.  `std::string::operator[]` at position `size()`
  returns `'\0'`; reads are modelled by `byteAt`, which returns `0` out of
  range.
* C++ machine integers are modelled as `Int`/`Nat` with explicit range
  checks / reductions modulo `2^w` exactly where the C++ performs a
  conversion.
* The width of the C++ `long`/`unsigned long` type is platform dependent
  (32 bits on LLP64 platforms such as 64-bit Windows, 64 bits on LP64
  platforms such as 64-bit Linux).  Definitions that depend on it take an
  explicit `longBits` argument.
* IEEE-754 `double` values and their conversions (`std::stod`,
  `std::to_string`, `operator<<` formatting, bit-pattern `memcpy`) are not
  given a bit-level model; they are abstracted by a `DoubleModel` record of
  uninterpreted functions over an abstract byte-string representation.
  Every concrete theorem below is stated for inputs that never reach a
  double conversion, so the abstraction is never applied in those proofs.
* Functions that throw C++ exceptions return `Except (List Nat) _` (the
  byte string of the exception message) or carry the message explicitly.
* The source's imperative loops are modelled as fuel-indexed recursive
  functions; each loop iteration consumes one unit of fuel.
-/

namespace HavJSONModel

/-- Byte strings: the model of C++ `std::string` contents. -/
abbrev Bytes := List Nat

/-- ASCII byte list of a Lean string literal (used only to write byte-string
literals for inputs/messages; all characters used are 7-bit). -/
def asciiBytes (s : String) : Bytes := s.data.map Char.toNat

/-- `std::string::operator[]`: within bounds the stored byte; at position
`size()` the C++ standard guarantees `'\0'`.  (Reads strictly beyond
`size()` are undefined behaviour in C++; the model returns `0` there.) -/
def byteAt (s : Bytes) (i : Nat) : Nat := s.getD i 0

/-- `operator<` on `std::string`: lexicographic byte comparison. -/
def bytesLt : Bytes → Bytes → Bool
  | [], [] => false
  | [], _ :: _ => true
  | _ :: _, [] => false
  | a :: as, b :: bs => if a < b then true else if b < a then false else bytesLt as bs

/-- `havJSONDataType` from the source (line 128). -/
inductive havJSONDataType : Type where
  | Null | Boolean | Int | UInt | Long | ULong | Int64 | UInt64
  | Double | String | Array | Object
deriving DecidableEq, Repr

/-- `havJSONToken` from the source (line 159). -/
inductive havJSONToken : Type where
  | None
  | LeftSquareBracket | LeftCurlyBracket | RightSquareBracket | RightCurlyBracket
  | Colon | Comma
  | Null | Boolean | Int | UInt | Long | ULong | Int64 | UInt64 | Double
  | String | Value
deriving DecidableEq, Repr

/-- `havJSONTokenValue` from the source (line 183). -/
structure havJSONTokenValue : Type where
  mToken : havJSONToken
  mValue : Option Bytes
deriving DecidableEq, Repr

mutual
/-- The value-tree node `havJSONData` (source line 204): a type tag
`mType` plus the `std::variant` payload `mValue`.  The two fields are
stored separately exactly as in the C++ class (they can in principle
disagree, since the two-argument constructor takes both explicitly). -/
inductive havJSONData : Type where
  | mk (mType : havJSONDataType) (mValue : havJSONVariant)

/-- The `havJSONVariant` payload alternatives (source line 207).  The
`const char*` alternative is omitted: every construction site immediately
stores a `std::string` for it.  `double` payloads are abstract byte
strings (see the header comment). -/
inductive havJSONVariant : Type where
  | vBool (b : Bool)
  | vInt (v : Int)
  | vUInt (v : Nat)
  | vLong (v : Int)
  | vULong (v : Nat)
  | vInt64 (v : Int)
  | vUInt64 (v : Nat)
  | vDouble (d : Bytes)
  | vString (s : Bytes)
  | vArray (items : List havJSONData)
  | vObject (entries : List (Bytes × havJSONData))
end

/-- `getType` accessor (source line 370). -/
def havJSONData.getType : havJSONData → havJSONDataType
  | .mk t _ => t

/-- `getValue` accessor (source line 368). -/
def havJSONData.getValue : havJSONData → havJSONVariant
  | .mk _ v => v

/-- Abstraction of all IEEE-754 `double` conversions used by the source
(see the header comment).  The abstract representation of a C++ `double`
is a byte string. -/
structure DoubleModel : Type where
  /-- `std::stod`; `none` models a thrown `std::invalid_argument` /
  `std::out_of_range`. -/
  stod : Bytes → Option Bytes
  /-- `stream << std::fixed << std::setprecision(15) << d` (lexer re-emission
  and BSON double decoding). -/
  fixed15 : Bytes → Bytes
  /-- `std::to_string(double)` (linearizer re-emission). -/
  toStringD : Bytes → Bytes
  /-- BSON decoding: 8 little-endian payload bytes `memcpy`ed to a double. -/
  ofLEBytes : Bytes → Bytes
  /-- BSON encoding: the bytes pushed for a double payload (bit pattern via
  `stream << std::hex` and the two-character little-endian loop). -/
  toLEBytes : Bytes → Bytes

/-- A trivial instantiation of `DoubleModel`, used to state closed
theorems about inputs that contain no doubles (the functions are never
applied there). -/
def trivialDouble : DoubleModel where
  stod _ := none
  fixed15 d := d
  toStringD d := d
  ofLEBytes d := d
  toLEBytes d := d

end HavJSONModel

namespace HavJSONModel

/-! ## Character and number helpers (models of C/C++ library functions) -/

/-- C `isspace` in the default locale. -/
def isSpaceChar (c : Nat) : Bool := c = 32 || (9 ≤ c && c ≤ 13)

/-- ASCII decimal digit. -/
def isDigitChar (c : Nat) : Bool := 48 ≤ c && c ≤ 57

/-- `std::isxdigit` in the default locale. -/
def isHexDigitChar (c : Nat) : Bool :=
  isDigitChar c || (97 ≤ c && c ≤ 102) || (65 ≤ c && c ≤ 70)

/-- Value of one hexadecimal digit character. -/
def hexDigitVal (c : Nat) : Nat :=
  if isDigitChar c then c - 48 else if 97 ≤ c && c ≤ 102 then c - 87 else c - 55

/-- `strtol(s, nullptr, 16)` on a string of hexadecimal digit characters. -/
def hexValue (hs : Bytes) : Nat := hs.foldl (fun a c => a * 16 + hexDigitVal c) 0

/-- Value of a string of decimal digit characters. -/
def decValue (ds : Bytes) : Nat := ds.foldl (fun a c => a * 10 + (c - 48)) 0

/-- The ideal (unbounded) integer denoted by a decimal literal, following
`strtol`: optional leading whitespace, optional sign, then at least one
decimal digit (the longest such prefix); `none` when there is no digit
(`std::invalid_argument` in the `std::sto*` wrappers). -/
def strtolIdeal (s : Bytes) : Option Int :=
  let s1 := s.dropWhile isSpaceChar
  let signNeg : Bool := match s1 with | 45 :: _ => true | _ => false
  let s2 := match s1 with | 43 :: r => r | 45 :: r => r | _ => s1
  let ds := s2.takeWhile isDigitChar
  if ds.isEmpty then none
  else some (if signNeg then -(decValue ds : Int) else (decValue ds : Int))

/-- Error kinds thrown by the `std::sto*` functions. -/
inductive StoErr : Type where
  | invalidArgument
  | outOfRange
deriving DecidableEq, Repr

/-- Does `v` fit a signed two's-complement integer of `w` bits? -/
def fitsSigned (w : Nat) (v : Int) : Bool := -(2 ^ (w - 1) : Int) ≤ v && v < (2 ^ (w - 1) : Int)

/-- `std::stoi`. -/
def stoiM (s : Bytes) : Except StoErr Int :=
  match strtolIdeal s with
  | none => .error .invalidArgument
  | some v => if fitsSigned 32 v then .ok v else .error .outOfRange

/-- `std::stol`; `longBits` is the platform width of `long`. -/
def stolM (longBits : Nat) (s : Bytes) : Except StoErr Int :=
  match strtolIdeal s with
  | none => .error .invalidArgument
  | some v => if fitsSigned longBits v then .ok v else .error .outOfRange

/-- `std::stoll`. -/
def stollM (s : Bytes) : Except StoErr Int :=
  match strtolIdeal s with
  | none => .error .invalidArgument
  | some v => if fitsSigned 64 v then .ok v else .error .outOfRange

/-- `std::stoul` / `std::stoull` (via `strtoul`): parses a sign and a digit
run; a magnitude above the type maximum is `std::out_of_range`; a negative
literal wraps modulo `2^w`. -/
def stoulW (w : Nat) (s : Bytes) : Except StoErr Nat :=
  match strtolIdeal s with
  | none => .error .invalidArgument
  | some v =>
    if v.natAbs > 2 ^ w - 1 then .error .outOfRange
    else .ok ((v.emod (2 ^ w)).toNat)

/-- `std::stoul`; `longBits` is the platform width of `unsigned long`. -/
def stoulM (longBits : Nat) (s : Bytes) : Except StoErr Nat := stoulW longBits s

/-- `std::stoull`. -/
def stoullM (s : Bytes) : Except StoErr Nat := stoulW 64 s

/-- `std::to_string` on signed integers (also the rendering of `Int`
results below). -/
def decString (v : Int) : Bytes := asciiBytes (toString v)

/-- `std::to_string` on unsigned integers. -/
def decStringN (v : Nat) : Bytes := asciiBytes (toString v)

/-- Interpret `n < 2^w` as a signed two's-complement value of `w` bits. -/
def toSigned (w : Nat) (n : Nat) : Int :=
  if n < 2 ^ (w - 1) then (n : Int) else (n : Int) - (2 ^ w : Int)

/-- `static_cast` of an integer value to a `w`-bit unsigned type. -/
def toUnsigned (w : Nat) (v : Int) : Nat := (v.emod (2 ^ w)).toNat

/-- `static_cast` of an integer value to a `w`-bit signed type. -/
def castSigned (w : Nat) (v : Int) : Int := toSigned w (toUnsigned w v)

/-- Hexadecimal rendering (lowercase, no padding) of a nonnegative value,
as produced by `stream << std::hex << v` for unsigned `v` (`"0"` for
zero). -/
def toHexString (n : Nat) : Bytes := (Nat.toDigits 16 n).map Char.toNat

/-- `std::setw(w)` with `std::setfill('0')`. -/
def setwFill (w : Nat) (s : Bytes) : Bytes := List.replicate (w - s.length) 48 ++ s

/-- `stream << std::hex << std::setw(w) << std::setfill('0') << n`. -/
def hexPad (w : Nat) (n : Nat) : Bytes := setwFill w (toHexString n)

end HavJSONModel

namespace HavJSONModel

/-! ## havJSONStream: whitespace, tokens, code points, escaping -/

/-- `SkipWhitespaces` (source line 914). -/
def SkipWhitespaces (currentChar : Nat) (ignoreSpace : Bool) : Bool :=
  if ignoreSpace = false && currentChar = 32 then true
  else currentChar = 92 || currentChar = 47 || currentChar = 8 || currentChar = 12 ||
       currentChar = 10 || currentChar = 13 || currentChar = 9 || currentChar = 11

/-- `CheckToken` (source line 933). -/
def CheckToken (currentChar : Nat) : havJSONToken :=
  if currentChar = 91 then .LeftSquareBracket
  else if currentChar = 123 then .LeftCurlyBracket
  else if currentChar = 93 then .RightSquareBracket
  else if currentChar = 125 then .RightCurlyBracket
  else if currentChar = 58 then .Colon
  else if currentChar = 44 then .Comma
  else .None

/-- `GetTokenAsCharacter` (source line 947); `0` is the `'\0'` default. -/
def GetTokenAsCharacter (currentToken : havJSONToken) : Nat :=
  match currentToken with
  | .LeftSquareBracket => 91
  | .LeftCurlyBracket => 123
  | .RightSquareBracket => 93
  | .RightCurlyBracket => 125
  | .Colon => 58
  | .Comma => 44
  | _ => 0

/-- `CodePointToString` (source line 961): UTF-8 encoding of a code point
into a `char[5]` buffer initialised to zero, then converted through
`std::string(const char*)`, which truncates at the first zero byte (so
code point `0` and code points `≥ 0x110000` produce the empty string). -/
def CodePointToString (codePoint : Nat) : Bytes :=
  let value : Bytes :=
    if codePoint < 0x80 then [codePoint]
    else if codePoint < 0x800 then
      [(codePoint >>> 6) ||| 0xc0, (codePoint &&& 0x3f) ||| 0x80]
    else if codePoint < 0x10000 then
      [(codePoint >>> 12) ||| 0xe0, ((codePoint >>> 6) &&& 0x3f) ||| 0x80,
       (codePoint &&& 0x3f) ||| 0x80]
    else if codePoint < 0x110000 then
      [(codePoint >>> 18) ||| 0xf0, ((codePoint >>> 12) &&& 0x3f) ||| 0x80,
       ((codePoint >>> 6) &&& 0x3f) ||| 0x80, (codePoint &&& 0x3f) ||| 0x80]
    else []
  value.takeWhile (fun b => b ≠ 0)

/-- One step of `ConvertToEscapedString`'s default branch: classify the
lead byte.  Returns `(numOfBytes, writeAsHex, initial codePoint)`;
`none` models the thrown "Invalid UTF-8 sequence!".  The comparison
`value[index] < 0x1f` is on a (signed) `char`, which for a one-byte lead
(`< 0x80`) is just the byte value. -/
def escClassify (b : Nat) : Option (Nat × Bool × Nat) :=
  if b &&& 0x80 = 0x00 then some (1, decide (b < 0x1f), if b < 0x1f then b &&& 0x7f else 0)
  else if b &&& 0xe0 = 0xc0 then some (2, true, b &&& 0x1f)
  else if b &&& 0xf0 = 0xe0 then some (3, true, b &&& 0x0f)
  else if b &&& 0xf8 = 0xf0 then some (4, true, b &&& 0x07)
  else none

/-- The continuation-byte loop of `ConvertToEscapedString` (source line
1081): consume `count` further bytes, each of which must satisfy
`(b & 0xc0) == 0x80`, accumulating the code point.  (Running off the end
of the string indexes past `size()`; the model reads the guaranteed
`'\0'` there, which fails the continuation test exactly as the C++
does at `index == size()`.) -/
def escContinuation : Nat → Nat → Bytes → Except Bytes (Nat × Bytes)
  | 0, cp, rest => .ok (cp, rest)
  | count + 1, cp, rest =>
    let b := match rest with | [] => 0 | b :: _ => b
    if b &&& 0xc0 = 0x80 then
      escContinuation count ((cp <<< 6) ||| (b &&& 0x3f)) (rest.tail)
    else .error (asciiBytes "Invalid UTF-8 sequence!")

/-- The `writeAsHex` emission of `ConvertToEscapedString` (source lines
1091-1114): a surrogate pair for `0x10000 ≤ cp ≤ 0x10ffff`, otherwise one
`\uXXXX` group (`setw(4)`, so more than four digits are printed for
`cp > 0xffff`). -/
def escHexEmit (codePoint : Nat) : Bytes :=
  if 0x10000 ≤ codePoint && codePoint ≤ 0x10ffff then
    let cp := codePoint - 0x10000
    let highSurrogate := cp / 0x400 + 0xd800
    let lowSurrogate := cp % 0x400 + 0xdc00
    [92, 117] ++ hexPad 4 highSurrogate ++ [92, 117] ++ hexPad 4 lowSurrogate
  else
    [92, 117] ++ hexPad 4 codePoint

/-- The loop of `ConvertToEscapedString` (source line 992), over the
remaining bytes; fuel-indexed, one unit per loop iteration (each
iteration consumes at least one byte, so `length + 1` fuel always
suffices). -/
def convertToEscapedStringLoop : Nat → Bytes → Except Bytes Bytes
  | _, [] => .ok []
  | 0, _ :: _ => .error (asciiBytes "out of fuel")
  | fuel + 1, b :: rest =>
    if b = 34 then (convertToEscapedStringLoop fuel rest).map (fun r => 92 :: 34 :: r)
    else if b = 92 then (convertToEscapedStringLoop fuel rest).map (fun r => 92 :: 92 :: r)
    else if b = 8 then (convertToEscapedStringLoop fuel rest).map (fun r => 92 :: 98 :: r)
    else if b = 12 then (convertToEscapedStringLoop fuel rest).map (fun r => 92 :: 102 :: r)
    else if b = 10 then (convertToEscapedStringLoop fuel rest).map (fun r => 92 :: 110 :: r)
    else if b = 13 then (convertToEscapedStringLoop fuel rest).map (fun r => 92 :: 114 :: r)
    else if b = 9 then (convertToEscapedStringLoop fuel rest).map (fun r => 92 :: 116 :: r)
    else if b = 11 then (convertToEscapedStringLoop fuel rest).map (fun r => 92 :: 118 :: r)
    else
      match escClassify b with
      | none => .error (asciiBytes "Invalid UTF-8 sequence!")
      | some (numOfBytes, writeAsHex, cp0) =>
        match escContinuation (numOfBytes - 1) cp0 rest with
        | .error e => .error e
        | .ok (codePoint, rest') =>
          let emitted := if writeAsHex then escHexEmit codePoint else [b]
          (convertToEscapedStringLoop fuel rest').map (fun r => emitted ++ r)

/-- `ConvertToEscapedString` (source line 992). -/
def ConvertToEscapedString (value : Bytes) : Except Bytes Bytes :=
  convertToEscapedStringLoop (value.length + 1) value

end HavJSONModel

namespace HavJSONModel

/-! ## CheckForString (source line 1126)

The C++ loop walks an index through the stream with several backward
index adjustments after `\u` processing.  The model consumes the byte
list from the front; every backward adjustment re-prepends exactly the
bytes the code rewinds over (which are known at that point), so the list
state coincides with the source's index position at the top of each
iteration of the `for` loop. -/

/-- Result of the four-round hexadecimal-digit read after `\u` (source
lines 1193-1214 and 1238-1259): `success` carries the four digit
characters and the remainder after them; `failure` carries the digit
characters collected before the first non-hex character and the
remainder starting at that character. -/
inductive Hex4Result : Type where
  | success (hexString : Bytes) (rest : Bytes)
  | failure (hexString : Bytes) (rest : Bytes)
deriving DecidableEq, Repr

/-- The four-round read itself; running out of input is the thrown
"Read beyond end of file!". -/
def readHex4Loop : Nat → Bytes → Bytes → Except Bytes Hex4Result
  | 0, acc, rest => .ok (.success acc rest)
  | k + 1, acc, rest =>
    match rest with
    | [] => .error (asciiBytes "Read beyond end of file!")
    | c :: cs =>
      if isHexDigitChar c then readHex4Loop k (acc ++ [c]) cs
      else .ok (.failure acc (c :: cs))

/-- The `\u` case of `CheckForString`'s escape switch (source lines
1185-1321): from the stream after the `u`, compute the bytes appended to
`tempValue` and the stream position the scan resumes at (as established
by the source's index adjustments). -/
def escapeUStep (cs2 : Bytes) : Except Bytes (Bytes × Bytes) :=
  match readHex4Loop 4 [] cs2 with
  | .error m => .error m
  | .ok (.failure hexString rest) =>
    -- not a unicode escape sequence: emit the 'u' and the collected
    -- digits, resume at the offending character
    .ok (117 :: hexString, rest)
  | .ok (.success hexString rest) =>
    let codePoint := hexValue hexString
    match rest with
    | [] => .error (asciiBytes "Read beyond end of file!")
    | c2 :: rest2 =>
      if c2 = 92 then
        match rest2 with
        | [] => .error (asciiBytes "Read beyond end of file!")
        | c3 :: rest3 =>
          if c3 = 117 then
            match readHex4Loop 4 [] rest3 with
            | .error m => .error m
            | .ok (.failure _ _) =>
              .error (asciiBytes "Invalid code point for UTF-16 low surrogate pair!")
            | .ok (.success hexString2 rest4) =>
              if 0xd800 ≤ codePoint && codePoint ≤ 0xdbff then
                let secondCodePoint := hexValue hexString2
                if 0xdc00 ≤ secondCodePoint && secondCodePoint ≤ 0xdfff then
                  let surrogatePairValue :=
                    0x10000 + (codePoint - 0xd800) * 0x400 + (secondCodePoint - 0xdc00)
                  .ok (CodePointToString surrogatePairValue, rest4)
                else
                  .error
                    (asciiBytes "Invalid code point range for UTF-16 low surrogate pair!")
              else
                -- index -= 6: resume at the second escape's backslash
                .ok (CodePointToString codePoint, 92 :: 117 :: (hexString2 ++ rest4))
          else
            -- index -= 2: resume at the backslash
            .ok (CodePointToString codePoint, 92 :: c3 :: rest3)
      else
        -- --index: resume at the character after the escape
        .ok (CodePointToString codePoint, c2 :: rest2)

/-- The body of `CheckForString`'s scanning loop (source lines
1134-1337), fuel-indexed with one unit per iteration of the outer `for`.
`acc` is `tempValue`; the first argument of each recursive call is the
stream from the source's resumption index. -/
def checkForStringLoop : Nat → Bytes → Bytes → Except Bytes (havJSONTokenValue × Bytes)
  | _, [], _ => .error (asciiBytes "Invalid string value!")
  | 0, _ :: _, _ => .error (asciiBytes "out of fuel")
  | fuel + 1, currentChar :: cs, acc =>
    if currentChar = 34 then
      .ok (⟨.Value, some acc⟩, cs)
    else if currentChar = 92 then
      match cs with
      | [] => .error (asciiBytes "Read beyond end of file!")
      | e :: cs2 =>
        if e = 34 || e = 92 || e = 47 then checkForStringLoop fuel cs2 (acc ++ [e])
        else if e = 98 then checkForStringLoop fuel cs2 (acc ++ [8])
        else if e = 102 then checkForStringLoop fuel cs2 (acc ++ [12])
        else if e = 110 then checkForStringLoop fuel cs2 (acc ++ [10])
        else if e = 114 then checkForStringLoop fuel cs2 (acc ++ [13])
        else if e = 116 then checkForStringLoop fuel cs2 (acc ++ [9])
        else if e = 117 then
          match escapeUStep cs2 with
          | .error m => .error m
          | .ok (emitted, rest) => checkForStringLoop fuel rest (acc ++ emitted)
        else if e = 118 then checkForStringLoop fuel cs2 (acc ++ [11])
        else .error (asciiBytes "Invalid escape character!")
    else checkForStringLoop fuel cs (acc ++ [currentChar])

/-- `CheckForString` (source line 1126): `cs` is the stream starting
after the opening quote.  Returns the `Value` token and the remainder
after the closing quote.  (Each loop iteration consumes at least one
byte net, so `length + 1` fuel always suffices.) -/
def CheckForString (cs : Bytes) : Except Bytes (havJSONTokenValue × Bytes) :=
  checkForStringLoop (cs.length + 1) cs []

end HavJSONModel

namespace HavJSONModel

/-! ## CheckForNumber (source line 1342) -/

/-- Is this byte a number-literal terminator for `CheckForNumber`'s
collection loop (source line 1350): `','` or a `SkipWhitespaces`
character? -/
def isNumberDelim (c : Nat) : Bool := c = 44 || SkipWhitespaces c false

/-- The classification part of `CheckForNumber` (source lines 1358-1533),
applied to the collected literal `tempValue`.  `longBits` is the platform
width of `long`/`unsigned long`; `dbl` abstracts `std::stod` and the
fixed/`setprecision(15)` re-emission. -/
def classifyNumber (longBits : Nat) (dbl : DoubleModel) (tempValue : Bytes) :
    Except Bytes havJSONTokenValue :=
  let foundDecimalPoint := tempValue.contains 46
  let foundExponent := tempValue.contains 101 || tempValue.contains 69
  if byteAt tempValue 0 = 45 then
    -- signed value
    if foundDecimalPoint || foundExponent then
      match dbl.stod tempValue with
      | none => .error (asciiBytes "stod failed")
      | some d => .ok ⟨.Double, some (dbl.fixed15 d)⟩
    else
      match stoiM tempValue with
      | .ok result => .ok ⟨.Int, some (decString result)⟩
      | .error .invalidArgument => .error (asciiBytes "stoi: invalid argument")
      | .error .outOfRange =>
        match stolM longBits tempValue with
        | .ok result => .ok ⟨.Long, some (decString result)⟩
        | .error .invalidArgument => .error (asciiBytes "stol: invalid argument")
        | .error .outOfRange =>
          match stollM tempValue with
          | .ok result => .ok ⟨.Int64, some (decString result)⟩
          | .error .invalidArgument => .error (asciiBytes "stoll: invalid argument")
          | .error .outOfRange => .error (asciiBytes "stoll: out of range")
  else
    -- unsigned value
    if foundDecimalPoint || foundExponent then
      match dbl.stod tempValue with
      | none => .error (asciiBytes "stod failed")
      | some d => .ok ⟨.Double, some (dbl.fixed15 d)⟩
    else
      -- first try: stoul plus the explicit `> UINT_MAX` out-of-range throw,
      -- both caught by the same out_of_range handler
      let firstTry : Except StoErr Nat :=
        match stoulM longBits tempValue with
        | .ok testResult =>
          if testResult > 0xffffffff then .error .outOfRange else .ok testResult
        | .error e => .error e
      match firstTry with
      | .ok testResult => .ok ⟨.UInt, some (decStringN testResult)⟩
      | .error .invalidArgument => .error (asciiBytes "stoul: invalid argument")
      | .error .outOfRange =>
        match stoulM longBits tempValue with
        | .ok result => .ok ⟨.ULong, some (decStringN result)⟩
        | .error .invalidArgument => .error (asciiBytes "stoul: invalid argument")
        | .error .outOfRange =>
          match stoullM tempValue with
          | .ok result => .ok ⟨.UInt64, some (decStringN result)⟩
          | .error .invalidArgument => .error (asciiBytes "stoull: invalid argument")
          | .error .outOfRange => .error (asciiBytes "stoull: out of range")

/-- `CheckForNumber` (source line 1342): `value` is the character that
started the literal, `rest` the stream after it.  The collection loop
reads until `','` or a whitespace character (or the end) and then backs
the index onto the delimiter, so the returned remainder starts at the
delimiter. -/
def CheckForNumber (longBits : Nat) (dbl : DoubleModel) (value : Nat) (rest : Bytes) :
    Except Bytes (havJSONTokenValue × Bytes) :=
  let tempValue := value :: rest.takeWhile (fun c => !isNumberDelim c)
  let remainder := rest.dropWhile (fun c => !isNumberDelim c)
  (classifyNumber longBits dbl tempValue).map (fun t => (t, remainder))

/-- `CheckForLiteral` (source line 1535): match the remaining characters
of `literalValue` (its first character was already consumed by the
caller) against the stream; returns the remainder after the match. -/
def checkForLiteralLoop : Bytes → Bytes → Bytes → Except Bytes Bytes
  | [], rest, _ => .ok rest
  | _ :: _, [], _ => .error (asciiBytes "Invalid literal value!")
  | l :: ls, c :: cs, literalValue =>
    if c = l then checkForLiteralLoop ls cs literalValue
    else .error (asciiBytes "Literal value invalid: " ++ literalValue)

/-- `CheckForLiteral` wrapper: `rest` starts after the literal's first
character. -/
def CheckForLiteral (rest : Bytes) (literalValue : Bytes) : Except Bytes Bytes :=
  checkForLiteralLoop (literalValue.drop 1) rest literalValue

end HavJSONModel

namespace HavJSONModel

/-! ## CheckTypeToken (source line 1566) and Tokenization (source line 2601) -/

/-- Is `c` one of the characters of the value-position `case` list in
`CheckTypeToken` (source lines 1620-1640)? -/
def isValuePositionChar (c : Nat) : Bool :=
  c = 34 || c = 116 || c = 102 || c = 110 || c = 117 || c = 45 || c = 43 ||
  c = 46 || c = 58 || (48 ≤ c && c ≤ 57) || c = 101 || c = 69

/-- Is `c` one of the characters dispatched to `CheckForNumber` (source
lines 1677-1692)? -/
def isNumberStartChar (c : Nat) : Bool :=
  c = 45 || c = 43 || c = 46 || c = 58 || (48 ≤ c && c ≤ 57) || c = 101 || c = 69

/-- The handling of one value-position character inside `CheckTypeToken`
(source lines 1641-1704, duplicated at 1764-1827): `c` is the character,
`cs` the stream after it.  Consumes `'u'`'s successor character because
the source advances the index once for the character and the enclosing
loop advances it again. -/
def cttValueChar (longBits : Nat) (dbl : DoubleModel) (c : Nat) (cs : Bytes) :
    Except Bytes (havJSONTokenValue × Bytes) :=
  if c = 34 then CheckForString cs
  else if c = 116 then
    (CheckForLiteral cs (asciiBytes "true")).map
      (fun rest => (⟨.Boolean, some (asciiBytes "true")⟩, rest))
  else if c = 102 then
    (CheckForLiteral cs (asciiBytes "false")).map
      (fun rest => (⟨.Boolean, some (asciiBytes "false")⟩, rest))
  else if c = 110 then
    (CheckForLiteral cs (asciiBytes "null")).map
      (fun rest => (⟨.Null, some (asciiBytes "null")⟩, rest))
  else if isNumberStartChar c then CheckForNumber longBits dbl c cs
  else
    -- only 'u' reaches this point: tempValue stays empty, so the returned
    -- `Value` token has no payload, and the index was already advanced once
    .ok (⟨.Value, none⟩, cs.drop 1)

/-- The object branch of `CheckTypeToken` (source lines 1569-1605):
structural tokens are pushed and the scan continues; a `'"'` yields a
`String` (key) token; anything else returns `None`; end of input returns
the structural token that was passed in. -/
def cttObjectLoop : Nat → Bytes → List havJSONTokenValue →
    Except Bytes (havJSONTokenValue × List havJSONTokenValue × Bytes)
  | _, [], mTokens => .ok (⟨.LeftCurlyBracket, none⟩, mTokens, [])
  | 0, _ :: _, _ => .error (asciiBytes "out of fuel")
  | fuel + 1, c :: cs, mTokens =>
    if SkipWhitespaces c false then cttObjectLoop fuel cs mTokens
    else
      let token := CheckToken c
      if token ≠ .None then cttObjectLoop fuel cs (mTokens ++ [⟨token, none⟩])
      else if c = 34 then
        (CheckForString cs).map (fun (res, rest) => (⟨.String, res.mValue⟩, mTokens, rest))
      else .ok (⟨.None, none⟩, mTokens, cs)

/-- The array branch of `CheckTypeToken` (source lines 1607-1719). -/
def cttArrayLoop (longBits : Nat) (dbl : DoubleModel) :
    Nat → Bytes → List havJSONTokenValue →
    Except Bytes (havJSONTokenValue × List havJSONTokenValue × Bytes)
  | _, [], mTokens => .ok (⟨.LeftSquareBracket, none⟩, mTokens, [])
  | 0, _ :: _, _ => .error (asciiBytes "out of fuel")
  | fuel + 1, c :: cs, mTokens =>
    if SkipWhitespaces c false then cttArrayLoop longBits dbl fuel cs mTokens
    else if isValuePositionChar c then
      (cttValueChar longBits dbl c cs).map (fun (t, rest) => (t, mTokens, rest))
    else if c = 123 then
      .ok (⟨.LeftCurlyBracket, none⟩, mTokens ++ [⟨.LeftCurlyBracket, none⟩], cs)
    else if c = 91 then
      .ok (⟨.LeftSquareBracket, none⟩, mTokens ++ [⟨.LeftSquareBracket, none⟩], cs)
    else .ok (⟨.None, none⟩, mTokens, cs)

/-- The remaining ("other types") branch of `CheckTypeToken` (source
lines 1721-1839): a structural token is pushed and also returned;
otherwise value-position characters are handled as in the array
branch. -/
def cttOtherLoop (longBits : Nat) (dbl : DoubleModel) (structuralToken : havJSONToken) :
    Nat → Bytes → List havJSONTokenValue →
    Except Bytes (havJSONTokenValue × List havJSONTokenValue × Bytes)
  | _, [], mTokens => .ok (⟨structuralToken, none⟩, mTokens, [])
  | 0, _ :: _, _ => .error (asciiBytes "out of fuel")
  | fuel + 1, c :: cs, mTokens =>
    if SkipWhitespaces c false then cttOtherLoop longBits dbl structuralToken fuel cs mTokens
    else
      let token := CheckToken c
      if token ≠ .None then .ok (⟨token, none⟩, mTokens ++ [⟨token, none⟩], cs)
      else if isValuePositionChar c then
        (cttValueChar longBits dbl c cs).map (fun (t, rest) => (t, mTokens, rest))
      else .ok (⟨.None, none⟩, mTokens, cs)

/-- `CheckTypeToken` (source line 1566). -/
def CheckTypeToken (longBits : Nat) (dbl : DoubleModel) (structuralToken : havJSONToken)
    (cs : Bytes) (mTokens : List havJSONTokenValue) :
    Except Bytes (havJSONTokenValue × List havJSONTokenValue × Bytes) :=
  if structuralToken = .LeftCurlyBracket then cttObjectLoop (cs.length + 1) cs mTokens
  else if structuralToken = .LeftSquareBracket then
    cttArrayLoop longBits dbl (cs.length + 1) cs mTokens
  else cttOtherLoop longBits dbl structuralToken (cs.length + 1) cs mTokens

/-- The state threaded through `Tokenization`'s character loop (source
lines 2605-2610): the emitted token deque and the bracket bookkeeping. -/
structure TokState : Type where
  mTokens : List havJSONTokenValue
  currentTypeToken : havJSONToken
  typeTokens : List havJSONToken
  typeTokenDepthLevels : List Nat
  depthLevel : Nat
deriving Repr

/-- The loop of `Tokenization` over a character stream (source lines
2612-2692).  Deques are lists with `push_back` appending at the end;
`typeTokens[depthLevel]` out of range is undefined behaviour in C++ and
an error in the model. -/
def tokenizationLoop (longBits : Nat) (dbl : DoubleModel) :
    Nat → Bytes → TokState → Except Bytes (List havJSONTokenValue)
  | _, [], st => .ok st.mTokens
  | 0, _ :: _, _ => .error (asciiBytes "out of fuel")
  | fuel + 1, c :: cs, st =>
    if SkipWhitespaces c false then tokenizationLoop longBits dbl fuel cs st
    else
      let token := CheckToken c
      let st :=
        if token ≠ .None then
          let st :=
            if token = .LeftCurlyBracket || token = .LeftSquareBracket then
              let st := { st with currentTypeToken := token,
                                  typeTokens := st.typeTokens ++ [token] }
              if st.depthLevel > 0 then
                { st with typeTokenDepthLevels := st.typeTokenDepthLevels ++ [st.depthLevel],
                          depthLevel := st.depthLevel + 1 }
              else st
            else st
          { st with mTokens := st.mTokens ++ [⟨token, none⟩] }
        else st
      if token = .RightCurlyBracket || token = .RightSquareBracket then
        if st.typeTokens.isEmpty then tokenizationLoop longBits dbl fuel cs st
        else
          let st :=
            match st.typeTokenDepthLevels.getLast? with
            | some d => { st with depthLevel := d,
                                  typeTokenDepthLevels := st.typeTokenDepthLevels.dropLast }
            | none => { st with depthLevel := 0 }
          match st.typeTokens.get? st.depthLevel with
          | none => .error (asciiBytes "deque index out of range (UB)")
          | some t =>
            tokenizationLoop longBits dbl fuel cs
              { st with currentTypeToken := t, typeTokens := st.typeTokens.dropLast }
      else
        let token := if token = .Comma then st.currentTypeToken else token
        let (token, csStart) :=
          if token = .None then (st.currentTypeToken, c :: cs) else (token, cs)
        match CheckTypeToken longBits dbl token csStart st.mTokens with
        | .error e => .error e
        | .ok (typeToken, mTokens2, rest) =>
          let st := { st with mTokens := mTokens2 }
          if typeToken.mToken ≠ .None then
            if typeToken.mToken = .LeftCurlyBracket || typeToken.mToken = .LeftSquareBracket then
              tokenizationLoop longBits dbl fuel rest
                { st with currentTypeToken := typeToken.mToken,
                          typeTokens := st.typeTokens ++ [typeToken.mToken],
                          typeTokenDepthLevels := st.typeTokenDepthLevels ++ [st.depthLevel],
                          depthLevel := st.depthLevel + 1 }
            else
              tokenizationLoop longBits dbl fuel rest
                { st with mTokens := st.mTokens ++ [typeToken] }
          else tokenizationLoop longBits dbl fuel rest st

/-- `Tokenization` over a string (source line 2601); returns the token
deque (`mTokens`). -/
def TokenizationStr (longBits : Nat) (dbl : DoubleModel) (jsonStringStream : Bytes) :
    Except Bytes (List havJSONTokenValue) :=
  tokenizationLoop longBits dbl (jsonStringStream.length + 1) jsonStringStream
    ⟨[], .None, [], [], 0⟩

end HavJSONModel

namespace HavJSONModel

/-! ## ParseJSONContents (source line 2807)

The C++ builder keeps a `std::deque` of raw pointers into the tree under
construction; child containers are physically inserted into their parent
when they are opened and are mutated in place through the pointer.  The
model keeps the open path as a stack of frames, deepest first; a frame
carries the node under construction and how it is wired into its parent
(`Reint`).  Materialising a frame into its parent at pop time (or at end
of input for frames that are never popped) reproduces the C++ in-place
wiring: the parent is suspended while the child is built, so no other
operation can observe the parent in between. -/

/-- `std::map::insert({k, v})`: ordered insert that keeps the existing
entry when the key is already present. -/
def mapInsert (k : Bytes) (v : havJSONData) :
    List (Bytes × havJSONData) → List (Bytes × havJSONData)
  | [] => [(k, v)]
  | (k', v') :: rest =>
    if bytesLt k k' then (k, v) :: (k', v') :: rest
    else if k = k' then (k', v') :: rest
    else (k', v') :: mapInsert k v rest

/-- In-place overwrite of the mapped value of an existing key (the model
of mutating the node an existing `iterator` points to). -/
def mapReplace (k : Bytes) (v : havJSONData) :
    List (Bytes × havJSONData) → List (Bytes × havJSONData)
  | [] => []
  | (k', v') :: rest =>
    if k = k' then (k', v) :: rest else (k', v') :: mapReplace k v rest

/-- `map::find` returning the mapped value. -/
def mapFindVal (k : Bytes) : List (Bytes × havJSONData) → Option havJSONData
  | [] => none
  | (k', v') :: rest => if k = k' then some v' else mapFindVal k rest

/-- How an open frame is wired into its parent when it closes. -/
inductive Reint : Type where
  | isRoot
  | intoArray
  | intoObjectNew (key : Bytes)
  | intoObjectReplace (key : Bytes)
deriving DecidableEq, Repr

/-- An open frame of the builder: the node under construction plus its
reintegration mode. -/
structure PFrame : Type where
  node : havJSONData
  reint : Reint

/-- Wire a closed frame into its parent node. -/
def materializeInto (f : PFrame) (parent : havJSONData) : havJSONData :=
  match f.reint with
  | .isRoot => parent
  | .intoArray =>
    match parent with
    | .mk t (.vArray items) => .mk t (.vArray (items ++ [f.node]))
    | p => p
  | .intoObjectNew k =>
    match parent with
    | .mk t (.vObject m) => .mk t (.vObject (mapInsert k f.node m))
    | p => p
  | .intoObjectReplace k =>
    match parent with
    | .mk t (.vObject m) => .mk t (.vObject (mapReplace k f.node m))
    | p => p

/-- The builder state: the open path (deepest frame first; the bottom
frame, when present, is the root) and, when the root frame has been
popped by a closing bracket, the finished root (the C++ `rootNode`
pointer stays valid after its deque entry is popped). -/
structure PState : Type where
  frames : List PFrame
  poppedRoot : Option havJSONData

/-- `rootNode != nullptr`. -/
def PState.rootExists (st : PState) : Bool :=
  !st.frames.isEmpty || st.poppedRoot.isSome

/-- Fold an open frame through the frames below it down to the root (the
C++ tree already contains every open child physically, so the root value
at any moment is this fold). -/
def materializeFold (f : PFrame) : List PFrame → havJSONData
  | [] => f.node
  | g :: rest => materializeFold ⟨materializeInto f g.node, g.reint⟩ rest

/-- The root value of a builder state: fold all still-open frames, or the
already-popped root. -/
def materializeAll : List PFrame → Option havJSONData → Option havJSONData
  | [], poppedRoot => poppedRoot
  | f :: rest, _ => some (materializeFold f rest)

/-- `tokenTypeReferences.pop_back()` at a closing bracket. -/
def framePop (st : PState) : Except Bytes PState :=
  match st.frames with
  | [] => .error (asciiBytes "pop_back on empty deque (UB)")
  | [f] => .ok { frames := [], poppedRoot := some f.node }
  | f :: g :: rest => .ok { st with frames := ⟨materializeInto f g.node, g.reint⟩ :: rest }

/-- Conversion of a literal token to a `havJSONData` value: the switch
duplicated at source lines 2977-3018 and 3085-3126. -/
def tokenToData (longBits : Nat) (dbl : DoubleModel) (token : havJSONTokenValue) :
    Except Bytes havJSONData :=
  match token.mValue with
  | none => .error (asciiBytes "optional has no value (UB)")
  | some payload =>
    match token.mToken with
    | .Null => .ok (.mk .Null (.vString payload))
    | .Boolean => .ok (.mk .Boolean (.vBool (payload = asciiBytes "true")))
    | .Int =>
      match stolM longBits payload with
      | .ok v => .ok (.mk .Int (.vInt (castSigned 32 v)))
      | .error _ => .error (asciiBytes "stol failed")
    | .UInt =>
      match stoulM longBits payload with
      | .ok v => .ok (.mk .UInt (.vUInt (v % 2 ^ 32)))
      | .error _ => .error (asciiBytes "stoul failed")
    | .Long =>
      match stolM longBits payload with
      | .ok v => .ok (.mk .Long (.vLong v))
      | .error _ => .error (asciiBytes "stol failed")
    | .ULong =>
      match stoulM longBits payload with
      | .ok v => .ok (.mk .ULong (.vULong v))
      | .error _ => .error (asciiBytes "stoul failed")
    | .Int64 =>
      match stollM payload with
      | .ok v => .ok (.mk .Int64 (.vInt64 v))
      | .error _ => .error (asciiBytes "stoll failed")
    | .UInt64 =>
      match stoullM payload with
      | .ok v => .ok (.mk .UInt64 (.vUInt64 v))
      | .error _ => .error (asciiBytes "stoull failed")
    | .Double =>
      match dbl.stod payload with
      | some d => .ok (.mk .Double (.vDouble d))
      | none => .error (asciiBytes "stod failed")
    | _ => .ok (.mk .String (.vString payload))

/-- Is this a literal value token (the lists at source lines 2964-2973
and 3072-3081)? -/
def isValueKindToken (t : havJSONToken) : Bool :=
  t = .Value || t = .Null || t = .Boolean || t = .Int || t = .UInt || t = .Long ||
  t = .ULong || t = .Int64 || t = .UInt64 || t = .Double

/-- The token list accepted directly after a `{` (source lines
2863-2878). -/
def allowedAfterLeftCurly (t : havJSONToken) : Bool :=
  t = .String || isValueKindToken t || t = .Colon || t = .Comma ||
  t = .RightCurlyBracket || t = .LeftCurlyBracket || t = .LeftSquareBracket

/-- The token list accepted directly after a `[` (source lines
2918-2931). -/
def allowedAfterLeftSquare (t : havJSONToken) : Bool :=
  isValueKindToken t || t = .Comma || t = .RightSquareBracket ||
  t = .LeftSquareBracket || t = .LeftCurlyBracket

/-- Insert a scalar under `key` into the open object on top of the
pointer stack (source lines 3020-3029). -/
def insertScalarIntoObject (st : PState) (key : Bytes) (value : havJSONData) :
    Except Bytes PState :=
  match st.frames with
  | [] => .error (asciiBytes "back on empty deque (UB)")
  | top :: below =>
    if top.node.getType = .Object then
      match top.node with
      | .mk t (.vObject m) =>
        .ok { st with frames := ⟨.mk t (.vObject (mapInsert key value m)), top.reint⟩ :: below }
      | _ => .error (asciiBytes "get_if returned null (UB)")
    else .error (asciiBytes "Invalid token! Expected object!")

/-- Open a child container under `key` inside the open object on top of
the stack (source lines 3031-3066): `insert` keeps an existing entry, in
which case the C++ descends into the existing node and mutates it in
place. -/
def openChildInObject (st : PState) (key : Bytes) (child : havJSONData) :
    Except Bytes PState :=
  match st.frames with
  | [] => .error (asciiBytes "back on empty deque (UB)")
  | top :: _ =>
    if top.node.getType = .Object then
      match top.node with
      | .mk _ (.vObject m) =>
        match mapFindVal key m with
        | some existing => .ok { st with frames := ⟨existing, .intoObjectReplace key⟩ :: st.frames }
        | none => .ok { st with frames := ⟨child, .intoObjectNew key⟩ :: st.frames }
      | _ => .error (asciiBytes "get_if returned null (UB)")
    else .error (asciiBytes "Invalid token! Expected object!")

/-- Append a scalar to the open array on top of the stack (source lines
3128-3135). -/
def appendScalarIntoArray (st : PState) (value : havJSONData) : Except Bytes PState :=
  match st.frames with
  | [] => .error (asciiBytes "back on empty deque (UB)")
  | top :: below =>
    if top.node.getType = .Array then
      match top.node with
      | .mk t (.vArray items) =>
        .ok { st with frames := ⟨.mk t (.vArray (items ++ [value])), top.reint⟩ :: below }
      | _ => .error (asciiBytes "get_if returned null (UB)")
    else .error (asciiBytes "Invalid token! Expected array!")

end HavJSONModel

namespace HavJSONModel

/-- The `String` (key) branch of one `ParseJSONContents` iteration
(source lines 2954-3067), given the key and the deque after the key
token: returns `(processed, state, current token, deque from the current
token)`. -/
def parseCommonString (longBits : Nat) (dbl : DoubleModel) (st : PState) (key : Bytes)
    (rest : List havJSONTokenValue) :
    Except Bytes (Bool × PState × havJSONTokenValue × List havJSONTokenValue) :=
  match rest with
  | [] => .error (asciiBytes "front on empty deque (UB)")
  | token2 :: rest2 =>
    if token2.mToken = .Colon then
      match rest2 with
      | [] => .error (asciiBytes "front on empty deque (UB)")
      | token3 :: rest3 =>
        if isValueKindToken token3.mToken then
          match tokenToData longBits dbl token3 with
          | .error e => .error e
          | .ok value =>
            (insertScalarIntoObject st key value).map
              (fun st => (true, st, token3, token3 :: rest3))
        else if token3.mToken = .LeftSquareBracket then
          (openChildInObject st key (.mk .Array (.vArray []))).map
            (fun st => (true, st, token3, token3 :: rest3))
        else if token3.mToken = .LeftCurlyBracket then
          (openChildInObject st key (.mk .Object (.vObject []))).map
            (fun st => (true, st, token3, token3 :: rest3))
        else .ok (false, st, token3, token3 :: rest3)
    else .ok (false, st, token2, token2 :: rest2)

/-- The unprocessed-value branch and the final `pop_front` of one
`ParseJSONContents` iteration (source lines 3069-3138). -/
def parseCommonValue (longBits : Nat) (dbl : DoubleModel) (processed : Bool)
    (token : havJSONTokenValue) (dq : List havJSONTokenValue) (st : PState) :
    Except Bytes (PState × List havJSONTokenValue) :=
  let stE : Except Bytes PState :=
    if !processed && isValueKindToken token.mToken then
      match tokenToData longBits dbl token with
      | .error e => .error e
      | .ok value => appendScalarIntoArray st value
    else .ok st
  match stE with
  | .error e => .error e
  | .ok st =>
    -- final pop_front
    match dq with
    | [] => .error (asciiBytes "pop_front on empty deque (UB)")
    | _ :: dqRest => .ok (st, dqRest)

/-- One `ParseJSONContents` iteration after the closing-bracket pop:
the `String`-key branch, then the value branch and `pop_front`. -/
def parseCommonAfterPop (longBits : Nat) (dbl : DoubleModel) (token : havJSONTokenValue)
    (rest : List havJSONTokenValue) (st : PState) :
    Except Bytes (PState × List havJSONTokenValue) :=
  let afterStringE : Except Bytes (Bool × PState × havJSONTokenValue × List havJSONTokenValue) :=
    if token.mToken = .String then
      match token.mValue with
      | none => .error (asciiBytes "optional has no value (UB)")
      | some key => parseCommonString longBits dbl st key rest
    else .ok (false, st, token, token :: rest)
  match afterStringE with
  | .error e => .error e
  | .ok (processed, st, token, dq) => parseCommonValue longBits dbl processed token dq st

/-- The common tail of one iteration of `ParseJSONContents`'s `while`
loop (source lines 2943-3139), entered with the current token at the
front of `dq`: the closing-bracket pop, the `String`-key branch, the
unprocessed-value branch and the final `pop_front`.  Returns the state
and the remaining deque for the next iteration; `.ok none` in the outer
result type means the function returned `false`. -/
def parseCommon (longBits : Nat) (dbl : DoubleModel) (dq : List havJSONTokenValue)
    (st : PState) : Except Bytes (PState × List havJSONTokenValue) :=
  match dq with
  | [] => .error (asciiBytes "front on empty deque (UB)")
  | token :: rest =>
    -- closing bracket: pop the pointer stack
    let stE : Except Bytes PState :=
      if token.mToken = .RightCurlyBracket || token.mToken = .RightSquareBracket then
        framePop st
      else .ok st
    match stE with
    | .error e => .error e
    | .ok st => parseCommonAfterPop longBits dbl token rest st

/-- The container-opening prologue shared by the `\x7b` and `[` cases of
`ParseJSONContents` (source lines 2836-2860 and 2891-2915): push a fresh
node when the top of the stack is an array, descend into the current
node otherwise; create the root when none exists yet. -/
def openContainer (st : PState) (node : havJSONData) : Except Bytes PState :=
  if st.rootExists then
    match st.frames with
    | [] => .error (asciiBytes "back on empty deque (UB)")
    | top :: _ =>
      if top.node.getType = .Array then
        .ok { st with frames := ⟨node, .intoArray⟩ :: st.frames }
      else .ok st
  else .ok { frames := [⟨node, .isRoot⟩], poppedRoot := none }

/-- The `while` loop of `ParseJSONContents` (source lines 2824-3140),
fuel-indexed with one unit per iteration.  `.ok none` is the C++
`return false`; `.ok (some v)` is the successfully built root. -/
def parseLoop (longBits : Nat) (dbl : DoubleModel) :
    Nat → List havJSONTokenValue → PState → Except Bytes (Option havJSONData)
  | _, [], st =>
    (match materializeAll st.frames st.poppedRoot with
     | none => .error (asciiBytes "No root node found!")
     | some root => .ok (some (.mk root.getType root.getValue)))
  | 0, _ :: _, _ => .error (asciiBytes "out of fuel")
  | fuel + 1, token :: restTokens, st =>
    if token.mToken = .Comma then parseLoop longBits dbl fuel restTokens st
    else if token.mToken = .LeftCurlyBracket then
      -- open an object (source lines 2836-2888)
      match openContainer st (.mk .Object (.vObject [])) with
      | .error e => .error e
      | .ok st =>
        match restTokens with
        | [] => .error (asciiBytes "front on empty deque (UB)")
        | t1 :: _ =>
          if !allowedAfterLeftCurly t1.mToken then .ok none
          else if t1.mToken = .LeftCurlyBracket || t1.mToken = .LeftSquareBracket then
            parseLoop longBits dbl fuel restTokens st
          else
            match parseCommon longBits dbl restTokens st with
            | .error e => .error e
            | .ok (st, dqRest) => parseLoop longBits dbl fuel dqRest st
    else if token.mToken = .LeftSquareBracket then
      -- open an array (source lines 2891-2941)
      match openContainer st (.mk .Array (.vArray [])) with
      | .error e => .error e
      | .ok st =>
        match restTokens with
        | [] => .error (asciiBytes "front on empty deque (UB)")
        | t1 :: _ =>
          if !allowedAfterLeftSquare t1.mToken then .ok none
          else if t1.mToken = .LeftSquareBracket || t1.mToken = .LeftCurlyBracket then
            parseLoop longBits dbl fuel restTokens st
          else
            match parseCommon longBits dbl restTokens st with
            | .error e => .error e
            | .ok (st, dqRest) => parseLoop longBits dbl fuel dqRest st
    else
      match parseCommon longBits dbl (token :: restTokens) st with
      | .error e => .error e
      | .ok (st, dqRest) => parseLoop longBits dbl fuel dqRest st

/-- `ParseJSONContents` (source line 2807): the empty-deque and
root-token precondition checks, then the loop. -/
def ParseJSONContents (longBits : Nat) (dbl : DoubleModel)
    (tokens : List havJSONTokenValue) : Except Bytes (Option havJSONData) :=
  match tokens with
  | [] => .ok none
  | t0 :: _ =>
    if t0.mToken ≠ .LeftCurlyBracket && t0.mToken ≠ .LeftSquareBracket then .ok none
    else parseLoop longBits dbl (tokens.length + 1) tokens ⟨[], none⟩

/-- `ParseContent` (source line 3435): tokenize then build.  `.ok none`
models `return false` (the caller receives a default-constructed node);
`.ok (some v)` models `return true` with `valueNode = v`. -/
def ParseContent (longBits : Nat) (dbl : DoubleModel) (fileContents : Bytes) :
    Except Bytes (Option havJSONData) :=
  match TokenizationStr longBits dbl fileContents with
  | .error e => .error e
  | .ok tokens =>
    if tokens.length > 0 then ParseJSONContents longBits dbl tokens
    else .ok none

end HavJSONModel

namespace HavJSONModel

/-! ## The linearizer (source lines 3455-3650) and the text writer
(source line 3652, compact mode) -/

mutual
/-- The per-item `switch` shared verbatim by `TokenizeArray` (source
lines 3466-3527) and `TokenizeObject` (source lines 3547-3608): the
token(s) for one value; a `std::get` on a payload that does not hold the
alternative named by the type tag throws `std::bad_variant_access`.  For
a container the open bracket is pushed and then `TokenizeArray` /
`TokenizeObject` is called, which emits the items and the closing
bracket; the composition is written out here (items then closing
bracket) so that the mutual recursion is structural. -/
def tokenizeOne (dbl : DoubleModel) (item : havJSONData) :
    Except Bytes (List havJSONTokenValue) :=
  match item with
  | .mk .Null (.vString s) => .ok [⟨.Null, some s⟩]
  | .mk .Boolean (.vBool b) =>
    .ok [⟨.Boolean, some (if b then asciiBytes "true" else asciiBytes "false")⟩]
  | .mk .Int (.vInt v) => .ok [⟨.Int, some (decString v)⟩]
  | .mk .UInt (.vUInt v) => .ok [⟨.UInt, some (decStringN v)⟩]
  | .mk .Long (.vLong v) => .ok [⟨.Long, some (decString v)⟩]
  | .mk .ULong (.vULong v) => .ok [⟨.ULong, some (decStringN v)⟩]
  | .mk .Int64 (.vInt64 v) => .ok [⟨.Int64, some (decString v)⟩]
  | .mk .UInt64 (.vUInt64 v) => .ok [⟨.UInt64, some (decStringN v)⟩]
  | .mk .Double (.vDouble d) => .ok [⟨.Double, some (dbl.toStringD d)⟩]
  | .mk .String (.vString s) => .ok [⟨.Value, some s⟩]
  | .mk .Array (.vArray items) =>
    (tokenizeArrayItems dbl items true).map (fun ts =>
      ⟨.LeftSquareBracket, none⟩ :: (ts ++ [⟨.RightSquareBracket, none⟩]))
  | .mk .Object (.vObject entries) =>
    (tokenizeObjectItems dbl entries true).map (fun ts =>
      ⟨.LeftCurlyBracket, none⟩ :: (ts ++ [⟨.RightCurlyBracket, none⟩]))
  | _ => .error (asciiBytes "bad_variant_access")

/-- The item loop of `TokenizeArray` (source line 3455): `','` before
every item but the first. -/
def tokenizeArrayItems (dbl : DoubleModel) (items : List havJSONData) (isFirst : Bool) :
    Except Bytes (List havJSONTokenValue) :=
  match items with
  | [] => .ok []
  | item :: rest =>
    match tokenizeOne dbl item with
    | .error e => .error e
    | .ok ts =>
      match tokenizeArrayItems dbl rest false with
      | .error e => .error e
      | .ok ts' =>
        .ok ((if isFirst then [] else [⟨.Comma, none⟩]) ++ ts ++ ts')

/-- The entry loop of `TokenizeObject` (source line 3533): `','` before
every entry but the first, then `String` key, `':'`, and the value
tokens (the source looks the value up by key with `operator[]`, which
yields the entry's own value). -/
def tokenizeObjectItems (dbl : DoubleModel) (entries : List (Bytes × havJSONData))
    (isFirst : Bool) : Except Bytes (List havJSONTokenValue) :=
  match entries with
  | [] => .ok []
  | (k, v) :: rest =>
    match tokenizeOne dbl v with
    | .error e => .error e
    | .ok ts =>
      match tokenizeObjectItems dbl rest false with
      | .error e => .error e
      | .ok ts' =>
        .ok ((if isFirst then [] else [⟨.Comma, none⟩]) ++
             [⟨.String, some k⟩, ⟨.Colon, none⟩] ++ ts ++ ts')
end

/-- `TokenizeArray` (source line 3455): the items, then `']'`. -/
def TokenizeArray (dbl : DoubleModel) (rootArray : List havJSONData) :
    Except Bytes (List havJSONTokenValue) :=
  (tokenizeArrayItems dbl rootArray true).map
    (fun ts => ts ++ [⟨.RightSquareBracket, none⟩])

/-- `TokenizeObject` (source line 3533): the entries, then `'}'`. -/
def TokenizeObject (dbl : DoubleModel) (rootObject : List (Bytes × havJSONData)) :
    Except Bytes (List havJSONTokenValue) :=
  (tokenizeObjectItems dbl rootObject true).map
    (fun ts => ts ++ [⟨.RightCurlyBracket, none⟩])

/-- `Tokenization` over a value (source line 3614): the root must be an
array or an object; emits the opening bracket, then the children. -/
def TokenizationVal (dbl : DoubleModel) (rootNode : havJSONData) :
    Except Bytes (List havJSONTokenValue) :=
  match rootNode with
  | .mk .Array (.vArray items) =>
    (TokenizeArray dbl items).map (fun ts => ⟨.LeftSquareBracket, none⟩ :: ts)
  | .mk .Array _ => .error (asciiBytes "bad_variant_access")
  | .mk .Object (.vObject entries) =>
    (TokenizeObject dbl entries).map (fun ts => ⟨.LeftCurlyBracket, none⟩ :: ts)
  | .mk .Object _ => .error (asciiBytes "bad_variant_access")
  | _ => .error (asciiBytes "Invalid token: Expected array or object as root node!")

/-- Does the token render through `GetTokenAsCharacter` (the condition at
source lines 4073-4083)? -/
def isStructuralRender (t : havJSONToken) : Bool :=
  !(t = .Value || t = .Null || t = .Boolean || t = .Int || t = .UInt || t = .Long ||
    t = .ULong || t = .Int64 || t = .UInt64 || t = .Double || t = .String)

/-- The token-emission loop of `ConvertJSONToString` (source lines
3687-4131) in compact mode (`formatted == false`): every branch guarded
by `formatted == true`, and the `previousToken`/`currentType` variables
they read, have no effect on the emitted bytes, so the model carries only
the `tokenTypes` stack (whose `back()`/`pop_back()` on an empty deque at
an unmatched closing bracket would still be undefined behaviour). -/
def writerLoop : Nat → List havJSONTokenValue → List havJSONDataType → Bytes →
    Except Bytes Bytes
  | _, [], _, out => .ok out
  | 0, _ :: _, _, _ => .error (asciiBytes "out of fuel")
  | fuel + 1, tok :: rest, tokenTypes, out =>
    let popE : Except Bytes (List havJSONDataType) :=
      if tok.mToken = .RightCurlyBracket || tok.mToken = .RightSquareBracket then
        if tokenTypes.isEmpty then .error (asciiBytes "pop_back on empty deque (UB)")
        else .ok tokenTypes.dropLast
      else .ok tokenTypes
    match popE with
    | .error e => .error e
    | .ok tokenTypes =>
      let emittedE : Except Bytes Bytes :=
        if isStructuralRender tok.mToken then .ok [GetTokenAsCharacter tok.mToken]
        else if tok.mToken = .String || tok.mToken = .Value then
          match tok.mValue with
          | none => .error (asciiBytes "optional has no value (UB)")
          | some payload =>
            (ConvertToEscapedString payload).map (fun esc => 34 :: esc ++ [34])
        else
          match tok.mValue with
          | none => .error (asciiBytes "optional has no value (UB)")
          | some payload => .ok payload
      match emittedE with
      | .error e => .error e
      | .ok emitted =>
        let tokenTypes :=
          if tok.mToken = .LeftCurlyBracket then tokenTypes ++ [havJSONDataType.Object]
          else if tok.mToken = .LeftSquareBracket then tokenTypes ++ [havJSONDataType.Array]
          else tokenTypes
        writerLoop fuel rest tokenTypes (out ++ emitted)

/-- `ConvertJSONToString` (source line 3652) with `formatted = false`
(compact mode).  `.ok none` models `return false` (root token not a
bracket); `.ok (some bytes)` models `return true` with the output
string. -/
def ConvertJSONToString (dbl : DoubleModel) (valueNode : havJSONData) :
    Except Bytes (Option Bytes) :=
  match TokenizationVal dbl valueNode with
  | .error e => .error e
  | .ok tokens =>
    match tokens with
    | [] => .ok none
    | t0 :: _ =>
      if t0.mToken ≠ .LeftCurlyBracket && t0.mToken ≠ .LeftSquareBracket then .ok none
      else (writerLoop (tokens.length + 1) tokens [] []).map some

end HavJSONModel

namespace HavJSONModel

/-! ## The BSON decoder: ConvertBSONToJSON (source line 1884) -/

/-- `havJSONBSONType` (source line 144). -/
inductive havJSONBSONType : Type where
  | Double | String | Array | BinaryData | Boolean | UTCDateTime
  | NullValue | JSCode | Int | Timestamp | Int64
deriving DecidableEq, Repr

/-- The `static_cast<havJSONBSONType>(currentChar)` dispatch: `none` for
any byte that is not one of the enum values (the `default` branch). -/
def bsonTypeOfByte (b : Nat) : Option havJSONBSONType :=
  if b = 0x01 then some .Double
  else if b = 0x02 then some .String
  else if b = 0x04 then some .Array
  else if b = 0x05 then some .BinaryData
  else if b = 0x08 then some .Boolean
  else if b = 0x09 then some .UTCDateTime
  else if b = 0x0a then some .NullValue
  else if b = 0x0d then some .JSCode
  else if b = 0x10 then some .Int
  else if b = 0x11 then some .Timestamp
  else if b = 0x12 then some .Int64
  else none

/-- `havJSONBSONTypeValue` (source line 189). -/
structure havJSONBSONTypeValue : Type where
  mType : havJSONBSONType
  mCurrentIndex : Nat
  mTotalLength : Nat
deriving Repr

/-- Little-endian read of `count` bytes starting at `index`. -/
def leNat (s : Bytes) (index count : Nat) : Nat :=
  (List.range count).foldr (fun i acc => acc * 256 + byteAt s (index + i)) 0

/-- `GetBSONKey` (source line 1844): C-string key starting at
`index + 1`, escaped and wrapped as `"key": `; returns the new index
(one past the terminating zero byte). -/
def GetBSONKey (s : Bytes) (index : Nat) : Except Bytes (Bytes × Nat) :=
  let body := ((s.drop (index + 1)).takeWhile (fun b => b ≠ 0))
  match ConvertToEscapedString body with
  | .error e => .error e
  | .ok escaped => .ok (34 :: escaped ++ [34, 58, 32], index + 1 + body.length + 1)

/-- `GetBSONValueSize` (source line 1870): little-endian `int32` (the
high byte read as a signed `char`, so a set top bit makes the value
negative, which throws); advances the index by four. -/
def GetBSONValueSize (s : Bytes) (index : Nat) : Except Bytes (Nat × Nat) :=
  let n := leNat s index 4
  if n ≥ 2 ^ 31 then .error (asciiBytes "Value size can't be negative!")
  else .ok (n, index + 4)

/-- The key prelude shared verbatim by every case of
`ConvertBSONToJSON`'s type switch (e.g. source lines 1923-1956): inside
an array, skip the type byte and the two-byte integer key and charge
three bytes to the array's running index; at top level, decode a
C-string key.  The `typeMemory` deque is modelled with its `back` at the
head of the list. -/
def bsonKeyPrelude (s : Bytes) (index : Nat) (typeMemory : List havJSONBSONTypeValue)
    (content : Bytes) : Except Bytes (Nat × List havJSONBSONTypeValue × Bytes) :=
  match typeMemory with
  | [] =>
    match GetBSONKey s index with
    | .error e => .error e
    | .ok (kv, index') => .ok (index', [], content ++ kv)
  | tv :: rest =>
    if tv.mType = .Array then
      .ok (index + 3, { tv with mCurrentIndex := tv.mCurrentIndex + 3 } :: rest, content)
    else .error (asciiBytes "Other types are not supported!")

/-- The array postlude shared by the scalar cases (e.g. source lines
2029-2042): charge `k` bytes to the enclosing array and emit `", "`
unless the array is about to close. -/
def bsonArrayPostlude (typeMemory : List havJSONBSONTypeValue) (content : Bytes)
    (k : Nat) : List havJSONBSONTypeValue × Bytes :=
  match typeMemory with
  | [] => ([], content)
  | tv :: rest =>
    if tv.mType = .Array then
      let tv := { tv with mCurrentIndex := tv.mCurrentIndex + k }
      (tv :: rest,
       if tv.mCurrentIndex + 1 < tv.mTotalLength then content ++ [44, 32] else content)
    else (tv :: rest, content)

/-- The after-switch close check (source lines 2540-2583): close an
array whose running index has reached its declared length, skip its
terminator, and charge one byte to the next enclosing array; at top
level append the `", "` separator. -/
def bsonCloseCheck (index : Nat) (typeMemory : List havJSONBSONTypeValue)
    (content : Bytes) : Except Bytes (Nat × List havJSONBSONTypeValue × Bytes) :=
  match typeMemory with
  | [] => .ok (index, [], content ++ [44, 32])
  | tv :: rest =>
    if tv.mCurrentIndex + 1 = tv.mTotalLength then
      match tv.mType with
      | .Array =>
        let content := content ++ [93]
        let index := index + 2
        match rest with
        | [] => .ok (index, [], content)
        | nv :: rest2 =>
          if nv.mType = .Array then
            let nv := { nv with mCurrentIndex := nv.mCurrentIndex + 1 }
            .ok (index, nv :: rest2,
                 if nv.mCurrentIndex + 1 < nv.mTotalLength then content ++ [44, 32] else content)
          else .ok (index, nv :: rest2, content)
      | _ => .error (asciiBytes "Unsupported type!")
    else .ok (index, tv :: rest, content)

/-- The `", "`-separated byte dump of the `BinaryData` case (source
lines 2490-2498), recursing on the remaining byte count. -/
def bsonBinaryDumpN (s : Bytes) (index : Nat) : Nat → Bytes
  | 0 => []
  | count + 1 =>
    CodePointToString (byteAt s index) ++
    (if count > 0 then [44, 32] ++ bsonBinaryDumpN s (index + 1) count else [])

/-- The same dump over the half-open index range `[index, stop)`. -/
def bsonBinaryDump (s : Bytes) (index stop : Nat) : Bytes :=
  bsonBinaryDumpN s index (stop - index)

/-- The body of `ConvertBSONToJSON`'s element loop (source lines
1896-2584), fuel-indexed; returns the JSON text built so far and the
final index (each iteration advances the index by at least one, so
`totalDocumentSize + 1` fuel suffices). -/
def convertBSONLoop (dbl : DoubleModel) (s : Bytes) (totalDocumentSize : Nat) :
    Nat → Nat → List havJSONBSONTypeValue → Bytes → Except Bytes (Bytes × Nat)
  | 0, _, _, _ => .error (asciiBytes "out of fuel")
  | fuel + 1, index, typeMemory, content =>
    if ¬(index < totalDocumentSize) then .ok (content, index)
    else if index + 1 = totalDocumentSize then .ok (content, index + 1)
    else
      let overrunE : Except Bytes Unit :=
        match typeMemory with
        | [] => .ok ()
        | tv :: _ =>
          if tv.mCurrentIndex > tv.mTotalLength then
            .error (asciiBytes "BSON type value index is greater than total length!")
          else .ok ()
      match overrunE with
      | .error e => .error e
      | .ok _ =>
        let currentChar := byteAt s index
        let stepE : Except Bytes (Nat × List havJSONBSONTypeValue × Bytes) :=
          match bsonTypeOfByte currentChar with
          | none => .error (asciiBytes "Unsupported type!")
          | some ty =>
            match bsonKeyPrelude s index typeMemory content with
            | .error e => .error e
            | .ok (index, typeMemory, content) =>
              match ty with
              | .NullValue =>
                let content := content ++ asciiBytes "null"
                let (typeMemory, content) := bsonArrayPostlude typeMemory content 0
                .ok (index, typeMemory, content)
              | .Boolean =>
                let value := byteAt s index
                let content :=
                  content ++ (if value ≠ 0 then asciiBytes "true" else asciiBytes "false")
                let (typeMemory, content) := bsonArrayPostlude typeMemory content 1
                .ok (index, typeMemory, content)
              | .Int =>
                let value := toSigned 32 (leNat s index 4)
                let index := index + 3
                let content := content ++ decString value
                let (typeMemory, content) := bsonArrayPostlude typeMemory content 4
                .ok (index, typeMemory, content)
              | .Timestamp =>
                let value := leNat s index 8
                let index := index + 7
                let content := content ++ decStringN value
                let (typeMemory, content) := bsonArrayPostlude typeMemory content 8
                .ok (index, typeMemory, content)
              | .UTCDateTime =>
                let value := toSigned 64 (leNat s index 8)
                let index := index + 7
                let content := content ++ decString value
                let (typeMemory, content) := bsonArrayPostlude typeMemory content 8
                .ok (index, typeMemory, content)
              | .Int64 =>
                let value := toSigned 64 (leNat s index 8)
                let index := index + 7
                let content := content ++ decString value
                let (typeMemory, content) := bsonArrayPostlude typeMemory content 8
                .ok (index, typeMemory, content)
              | .Double =>
                let bytes8 := (List.range 8).map (fun i => byteAt s (index + i))
                let index := index + 7
                let content := content ++ dbl.fixed15 (dbl.ofLEBytes bytes8)
                let (typeMemory, content) := bsonArrayPostlude typeMemory content 8
                .ok (index, typeMemory, content)
              | .JSCode =>
                match GetBSONValueSize s index with
                | .error e => .error e
                | .ok (valueSize, index) =>
                  let body := ((s.drop index).take valueSize).takeWhile (fun b => b ≠ 0)
                  let index := index + body.length
                  match ConvertToEscapedString body with
                  | .error e => .error e
                  | .ok escaped =>
                    let content := content ++ [34] ++ escaped ++ [34]
                    let (typeMemory, content) :=
                      bsonArrayPostlude typeMemory content (4 + (escaped.length + 1))
                    .ok (index, typeMemory, content)
              | .String =>
                match GetBSONValueSize s index with
                | .error e => .error e
                | .ok (valueSize, index) =>
                  let body := ((s.drop index).take valueSize).takeWhile (fun b => b ≠ 0)
                  let index := index + body.length
                  match ConvertToEscapedString body with
                  | .error e => .error e
                  | .ok escaped =>
                    let content := content ++ [34] ++ escaped ++ [34]
                    let (typeMemory, content) :=
                      bsonArrayPostlude typeMemory content (4 + (escaped.length + 1))
                    .ok (index, typeMemory, content)
              | .Array =>
                match GetBSONValueSize s index with
                | .error e => .error e
                | .ok (valueSize, index) =>
                  -- `--index` to prevent an off-by-one with the loop increment
                  let index := index - 1
                  .ok (index, ⟨.Array, 4, valueSize⟩ :: typeMemory, content ++ [91])
              | .BinaryData =>
                match GetBSONValueSize s index with
                | .error e => .error e
                | .ok (valueSize, index) =>
                  let content := content ++ [91]
                  let subtypeValue := byteAt s index
                  let index := index + 1
                  let binaryDataEnd := index + valueSize
                  if subtypeValue = 0x00 || subtypeValue = 0x02 then
                    let content := content ++ bsonBinaryDump s index binaryDataEnd ++ [93]
                    let (typeMemory, content) :=
                      bsonArrayPostlude typeMemory content (4 + valueSize)
                    .ok (index, typeMemory, content)
                  else if subtypeValue ≥ 0x80 then
                    .error (asciiBytes "User defined subtypes are unsupported!")
                  else .error (asciiBytes "Unsupported subtype!")
        match stepE with
        | .error e => .error e
        | .ok (index, typeMemory, content) =>
          match bsonCloseCheck index typeMemory content with
          | .error e => .error e
          | .ok (index, typeMemory, content) =>
            convertBSONLoop dbl s totalDocumentSize fuel (index + 1) typeMemory content

/-- `ConvertBSONToJSON` (source line 1884). -/
def ConvertBSONToJSON (dbl : DoubleModel) (s : Bytes) : Except Bytes Bytes :=
  match GetBSONValueSize s 0 with
  | .error e => .error e
  | .ok (totalDocumentSize, index) =>
    match convertBSONLoop dbl s totalDocumentSize (totalDocumentSize + 1) index [] [123] with
    | .error e => .error e
    | .ok (content, index) =>
      if byteAt s index ≠ 0 then .error (asciiBytes "EOO not found!")
      else
        let content :=
          if content.length ≥ 2 && content.drop (content.length - 2) = [44, 32] then
            content.take (content.length - 2)
          else content
        .ok (content ++ [125])

end HavJSONModel

namespace HavJSONModel

/-! ## The BSON encoder: ConvertJSONToBSON (source line 4167) -/

/-- The little-endian byte emission used throughout the encoder (e.g.
source lines 4463-4468): walk the hex string two characters at a time
from the end, converting each pair with `strtol(..., 16)`.  For an
odd-length string the first character is never consumed. -/
def lePairBytes (s : Bytes) : Bytes :=
  (List.range (s.length / 2)).map (fun k =>
    hexValue [byteAt s (s.length - 2 - 2 * k), byteAt s (s.length - 2 - 2 * k + 1)])

/-- `vector::insert(begin() + pos + i, b)` for the four length bytes in
order (source lines 4261-4269): a splice at `pos`. -/
def insertAt (pos : Nat) (newBytes : Bytes) (stream : Bytes) : Bytes :=
  stream.take pos ++ newBytes ++ stream.drop pos

/-- `havJSONBSONDataType` (source line 196). -/
structure havJSONBSONDataType : Type where
  mDataType : havJSONDataType
  mIndexToWriteTotalSizeTo : Nat
  mArrayTotalSize : Nat
  mCurrentArrayItemIndex : Nat
deriving Repr

/-- The token clean-up before encoding (source lines 4181-4209): drop
`':'` and `','` tokens; rewrite `UInt` to `Int`, `Long` to `Int64` and
`ULong` to `UInt64` (payloads kept). -/
def bsonPreprocess (tokens : List havJSONTokenValue) : List havJSONTokenValue :=
  tokens.filterMap (fun t =>
    if t.mToken = .Colon || t.mToken = .Comma then none
    else
      some { t with
        mToken :=
          if t.mToken = .UInt then .Int
          else if t.mToken = .Long then .Int64
          else if t.mToken = .ULong then .UInt64
          else t.mToken })

/-- The token set of the encoder's value branch (source lines
4285-4296). -/
def isBsonValueBranchToken (t : havJSONToken) : Bool :=
  t = .Value || t = .Null || t = .Boolean || t = .Int || t = .UInt64 || t = .Int64 ||
  t = .Double || t = .String || t = .LeftCurlyBracket || t = .LeftSquareBracket ||
  t = .RightCurlyBracket || t = .RightSquareBracket

/-- The type-tag byte chosen by peeking at `nextToken` (source lines
4312-4356): `none` payload means no byte; an unexpected token throws. -/
def bsonTagBytes (t : havJSONToken) : Except Bytes Bytes :=
  match t with
  | .Value => .ok [0x02]
  | .Null => .ok [0x0a]
  | .Boolean => .ok [0x08]
  | .Int => .ok [0x10]
  | .UInt64 => .ok [0x11]
  | .Int64 => .ok [0x12]
  | .Double => .ok [0x01]
  | .LeftSquareBracket => .ok [0x04]
  | .String | .LeftCurlyBracket | .RightCurlyBracket | .RightSquareBracket => .ok []
  | _ => .error (asciiBytes "Unsupported token!")

/-- The encoder's main loop (source lines 4224-4615), fuel-indexed, with
the `tokenTypes` deque's `back` at the head of the list. -/
def bsonEncodeLoop (longBits : Nat) (dbl : DoubleModel) :
    Nat → List havJSONTokenValue → List havJSONBSONDataType → Bytes → Nat →
    Except Bytes Bytes
  | _, [], _, stream, _ => .ok stream
  | 0, _ :: _, _, _, _ => .error (asciiBytes "out of fuel")
  | fuel + 1, tok :: rest, tokenTypes, stream, fileIndex =>
    match tokenTypes with
    | [] => .error (asciiBytes "back on empty deque (UB)")
    | currentType :: belowTypes =>
      if tok.mToken = .LeftCurlyBracket then
        bsonEncodeLoop longBits dbl fuel rest
          (⟨.Object, fileIndex, 0, 0⟩ :: currentType :: belowTypes) stream fileIndex
      else if tok.mToken = .LeftSquareBracket then
        bsonEncodeLoop longBits dbl fuel rest
          (⟨.Array, fileIndex, 4, 0⟩ :: currentType :: belowTypes) stream fileIndex
      else if tok.mToken = .RightCurlyBracket || tok.mToken = .RightSquareBracket then
        let (stream, fileIndex) :=
          if tok.mToken = .RightSquareBracket then
            let total := currentType.mArrayTotalSize + 1
            let stringOutput := hexPad 8 total
            (insertAt currentType.mIndexToWriteTotalSizeTo (lePairBytes stringOutput) stream,
             fileIndex + 4)
          else (stream, fileIndex)
        bsonEncodeLoop longBits dbl fuel rest belowTypes (stream ++ [0]) (fileIndex + 1)
      else if isBsonValueBranchToken tok.mToken then
        -- peek at the next token for the type tag (object context only)
        let nextTokenE : Except Bytes havJSONTokenValue :=
          if currentType.mDataType ≠ .Array then
            match rest with
            | [] => .error (asciiBytes "iterator past the end (UB)")
            | nt :: _ => .ok nt
          else .ok tok
        match nextTokenE with
        | .error e => .error e
        | .ok nextToken =>
          match bsonTagBytes nextToken.mToken with
          | .error e => .error e
          | .ok tagBytes =>
            let stream := stream ++ tagBytes
            let (fileIndex, currentType) :=
              if nextToken.mToken ≠ .RightCurlyBracket &&
                 nextToken.mToken ≠ .RightSquareBracket then
                (fileIndex + 1,
                 if currentType.mDataType = .Array then
                   { currentType with mArrayTotalSize := currentType.mArrayTotalSize + 1 }
                 else currentType)
              else (fileIndex, currentType)
            -- the two-character hexadecimal array key (source lines 4369-4393)
            let (stream, fileIndex, currentType) :=
              if currentType.mDataType = .Array then
                let stringOutput := toHexString currentType.mCurrentArrayItemIndex
                let keyChars :=
                  [if 0 < stringOutput.length then byteAt stringOutput 0 else 0,
                   if 1 < stringOutput.length then byteAt stringOutput 1 else 0]
                (stream ++ keyChars, fileIndex + 2,
                 { currentType with mArrayTotalSize := currentType.mArrayTotalSize + 2 })
              else (stream, fileIndex, currentType)
            -- the payload switch (source lines 4395-4602)
            let payloadE : Except Bytes (Bytes × Nat) :=
              match tok.mToken with
              | .Value =>
                match tok.mValue with
                | none => .error (asciiBytes "optional has no value (UB)")
                | some payload =>
                  let stringOutput := CodePointToString (payload.length + 1)
                  let sizeBytes := (List.range 4).map (fun i =>
                    if i < stringOutput.length then byteAt stringOutput i else 0)
                  match ConvertToEscapedString payload with
                  | .error e => .error e
                  | .ok stringValue =>
                    .ok (sizeBytes ++ stringValue ++ [0], 4 + stringValue.length + 1)
              | .Boolean =>
                match tok.mValue with
                | none => .error (asciiBytes "optional has no value (UB)")
                | some payload =>
                  .ok ([if payload = asciiBytes "true" then 1 else 0], 1)
              | .Int =>
                match tok.mValue with
                | none => .error (asciiBytes "optional has no value (UB)")
                | some payload =>
                  match stoiM payload with
                  | .error _ => .error (asciiBytes "stoi failed")
                  | .ok v => .ok (lePairBytes (hexPad 8 (toUnsigned 32 v)), 4)
              | .UInt64 =>
                match tok.mValue with
                | none => .error (asciiBytes "optional has no value (UB)")
                | some payload =>
                  match stoullM payload with
                  | .error _ => .error (asciiBytes "stoull failed")
                  | .ok v => .ok (lePairBytes (hexPad 16 v), 8)
              | .Int64 =>
                match tok.mValue with
                | none => .error (asciiBytes "optional has no value (UB)")
                | some payload =>
                  match stollM payload with
                  | .error _ => .error (asciiBytes "stoll failed")
                  | .ok v => .ok (lePairBytes (hexPad 16 (toUnsigned 64 v)), 8)
              | .Double =>
                match tok.mValue with
                | none => .error (asciiBytes "optional has no value (UB)")
                | some payload =>
                  match dbl.stod payload with
                  | none => .error (asciiBytes "stod failed")
                  | some rep => .ok (dbl.toLEBytes rep, 8)
              | .String =>
                match tok.mValue with
                | none => .error (asciiBytes "optional has no value (UB)")
                | some payload =>
                  match ConvertToEscapedString payload with
                  | .error e => .error e
                  | .ok stringValue => .ok (stringValue ++ [0], stringValue.length + 1)
              | .RightCurlyBracket | .RightSquareBracket => .ok ([0], 1)
              | .Null | .LeftCurlyBracket | .LeftSquareBracket => .ok ([], 0)
              | _ => .error (asciiBytes "Unsupported token!")
            match payloadE with
            | .error e => .error e
            | .ok (payloadBytes, delta) =>
              let stream := stream ++ payloadBytes
              let fileIndex := fileIndex + delta
              let currentType :=
                if currentType.mDataType = .Array then
                  { currentType with mArrayTotalSize := currentType.mArrayTotalSize + delta }
                else currentType
              let currentType :=
                if currentType.mDataType = .Array then
                  { currentType with
                    mCurrentArrayItemIndex := currentType.mCurrentArrayItemIndex + 1 }
                else currentType
              bsonEncodeLoop longBits dbl fuel rest (currentType :: belowTypes) stream fileIndex
      else .error (asciiBytes "Unsupported token!")

/-- `ConvertJSONToBSON` (source line 4167). -/
def ConvertJSONToBSON (longBits : Nat) (dbl : DoubleModel) (valueNode : havJSONData) :
    Except Bytes Bytes :=
  match TokenizationVal dbl valueNode with
  | .error e => .error e
  | .ok tokens =>
    match tokens with
    | [] => .error (asciiBytes "iterator past the end (UB)")
    | t0 :: _ =>
      if t0.mToken ≠ .LeftCurlyBracket then
        .error (asciiBytes "BSON document must be an object!")
      else
        match bsonPreprocess tokens with
        | [] => .error (asciiBytes "iterator past the end (UB)")
        | t0' :: restTokens =>
          let tokenTypes : List havJSONBSONDataType :=
            if t0'.mToken = .LeftCurlyBracket then [⟨.Object, 0, 0, 0⟩] else []
          bsonEncodeLoop longBits dbl (restTokens.length + 1) restTokens tokenTypes [] 0

/-- `int32` written to disk on x86: four little-endian bytes. -/
def int32LEBytes (n : Nat) : Bytes :=
  [n % 256, n / 256 % 256, n / 65536 % 256, n / 16777216 % 256]

/-- The byte image produced by `WriteBSONFile` (source line 4623): the
total length (`stream size + 4`, including the length field itself) as a
little-endian `int32`, then the encoded stream. -/
def WriteBSONFileBytes (longBits : Nat) (dbl : DoubleModel) (valueNode : havJSONData) :
    Except Bytes Bytes :=
  match ConvertJSONToBSON longBits dbl valueNode with
  | .error e => .error e
  | .ok stream => .ok (int32LEBytes ((stream.length + 4) % 2 ^ 32) ++ stream)

end HavJSONModel

namespace HavJSONModel

/-! ## Tree-manipulation member functions used by the claims -/

/-- `map::erase(find(key))` on a map value when the key is present
(otherwise unchanged), as performed on `remove`'s local copy. -/
def mapEraseIfFound (key : Bytes) : List (Bytes × havJSONData) → List (Bytes × havJSONData)
  | [] => []
  | (k, v) :: rest => if k = key then rest else (k, v) :: mapEraseIfFound key rest

/-- `havJSONData::remove(const std::string&)` (source line 831).  The
returned pair is `(the object after the call, the discarded local copy)`:
`auto value = std::get<map>(mValue)` fetches the map **by value**, so the
`find`/`erase` mutate only the local copy and the member `mValue` is
never written.  A non-object receiver throws. -/
def havJSONData.remove (d : havJSONData) (key : Bytes) :
    Except Bytes (havJSONData × List (Bytes × havJSONData)) :=
  match d with
  | .mk t v =>
    if t = .Object then
      match v with
      | .vObject m =>
        let value := mapEraseIfFound key m
        .ok (.mk t v, value)
      | _ => .error (asciiBytes "bad_variant_access")
    else .error (asciiBytes "Value is not an object!")

/-- `havJSONData::clear()` (source line 554).  The function empties the
container **in place** (through `std::get` on the member) when the type
tag is `Array` or `Object`, and then falls through to the unconditional
`throw`; the result is `(state after the call, thrown message)`.  A type
tag naming a container whose payload holds a different alternative makes
`std::get` throw `bad_variant_access` before the container is touched. -/
def havJSONData.clear (d : havJSONData) : havJSONData × Bytes :=
  match d with
  | .mk .Array (.vArray _) =>
    (.mk .Array (.vArray []), asciiBytes "Value is not an array or object!")
  | .mk .Array _ => (d, asciiBytes "bad_variant_access")
  | .mk .Object (.vObject _) =>
    (.mk .Object (.vObject []), asciiBytes "Value is not an array or object!")
  | .mk .Object _ => (d, asciiBytes "bad_variant_access")
  | _ => (d, asciiBytes "Value is not an array or object!")

/-- `havJSONData::insert(std::string, ...)` (source line 797): ordered
`map::insert` on the member (in place); a non-object receiver throws. -/
def havJSONData.insertKey (d : havJSONData) (key : Bytes) (newValue : havJSONData) :
    Except Bytes havJSONData :=
  match d with
  | .mk t v =>
    if t = .Object then
      match v with
      | .vObject m => .ok (.mk t (.vObject (mapInsert key newValue m)))
      | _ => .error (asciiBytes "bad_variant_access")
    else .error (asciiBytes "Value is not an object!")

end HavJSONModel

namespace HavJSONModel

/-! ## Derived predicates and concrete inputs used by the theorems -/

mutual
/-- Every object node in the tree has strictly `bytesLt`-increasing keys
(hence unique keys) and sorted children: the invariant the `std::map`
representation guarantees in the C++ tree. -/
def objsSorted : havJSONData → Bool
  | .mk _ v => varSorted v

/-- `objsSorted` on a payload. -/
def varSorted : havJSONVariant → Bool
  | .vArray items => listSorted items
  | .vObject entries => entriesSorted entries
  | _ => true

/-- `objsSorted` on every element of an array payload. -/
def listSorted : List havJSONData → Bool
  | [] => true
  | d :: rest => objsSorted d && listSorted rest

/-- Strictly increasing keys and sorted mapped values. -/
def entriesSorted : List (Bytes × havJSONData) → Bool
  | [] => true
  | [(_, v)] => objsSorted v
  | (k1, v1) :: (k2, v2) :: rest =>
    bytesLt k1 k2 && objsSorted v1 && entriesSorted ((k2, v2) :: rest)
end

/-- Is `k` a strict `bytesLt` lower bound for the first key of the entry
list (vacuously true for the empty list)? -/
def keyLB (k : Bytes) : List (Bytes × havJSONData) → Bool
  | [] => true
  | (k2, _) :: _ => bytesLt k k2

/-- Every open frame of the builder holds a sorted node. -/
def framesSorted (fs : List PFrame) : Bool := fs.all (fun f => objsSorted f.node)

/-- The builder-state invariant: all open frames and the popped root (if
any) are sorted. -/
def stateSorted (st : PState) : Bool :=
  framesSorted st.frames &&
    (match st.poppedRoot with | none => true | some r => objsSorted r)

/-- The standard minimal UTF-8 encoding of a code point (the spec-side
notion of §4.4's "decode the UTF-8 sequence ... into a code point"). -/
def utf8Encode (cp : Nat) : Bytes :=
  if cp < 0x80 then [cp]
  else if cp < 0x800 then [0xc0 + cp / 64, 0x80 + cp % 64]
  else if cp < 0x10000 then [0xe0 + cp / 4096, 0x80 + cp / 64 % 64, 0x80 + cp % 64]
  else [0xf0 + cp / 262144, 0x80 + cp / 4096 % 64, 0x80 + cp / 64 % 64, 0x80 + cp % 64]

/-- The per-code-point output of the outgoing escaper as the code
actually behaves (the amended form of claim C7): named escapes; `\uXXXX`
for code points `0x00-0x1e`; a raw byte for `0x1f-0x7f`; `\uXXXX` for
`0x80-0xffff`; a UTF-16 surrogate pair for `0x10000-0x10ffff`. -/
def escapeCodePoint (cp : Nat) : Bytes :=
  if cp = 34 then [92, 34]
  else if cp = 92 then [92, 92]
  else if cp = 8 then [92, 98]
  else if cp = 12 then [92, 102]
  else if cp = 10 then [92, 110]
  else if cp = 13 then [92, 114]
  else if cp = 9 then [92, 116]
  else if cp = 11 then [92, 118]
  else if cp < 0x1f then [92, 117] ++ hexPad 4 cp
  else if cp < 0x80 then [cp]
  else if cp < 0x10000 then [92, 117] ++ hexPad 4 cp
  else
    [92, 117] ++ hexPad 4 ((cp - 0x10000) / 0x400 + 0xd800) ++
    [92, 117] ++ hexPad 4 ((cp - 0x10000) % 0x400 + 0xdc00)

/-- The per-code-point output the claim's own wording predicts
("printable 7-bit characters as a single byte, every other code point
beyond the eight named control escapes as `\uXXXX`"): printable 7-bit
means `0x20-0x7e`. -/
def escapeCodePointClaimed (cp : Nat) : Bytes :=
  if cp = 34 then [92, 34]
  else if cp = 92 then [92, 92]
  else if cp = 8 then [92, 98]
  else if cp = 12 then [92, 102]
  else if cp = 10 then [92, 110]
  else if cp = 13 then [92, 114]
  else if cp = 9 then [92, 116]
  else if cp = 11 then [92, 118]
  else if 0x20 ≤ cp && cp ≤ 0x7e then [cp]
  else if cp < 0x10000 then [92, 117] ++ hexPad 4 cp
  else
    [92, 117] ++ hexPad 4 ((cp - 0x10000) / 0x400 + 0xd800) ++
    [92, 117] ++ hexPad 4 ((cp - 0x10000) % 0x400 + 0xdc00)

/-- The `String`-token payloads (object keys) a token stream carries at
bracket depth `depth` relative to its start. -/
def topLevelKeys : List havJSONTokenValue → Nat → List Bytes
  | [], _ => []
  | t :: rest, depth =>
    match t.mToken with
    | .LeftCurlyBracket => topLevelKeys rest (depth + 1)
    | .LeftSquareBracket => topLevelKeys rest (depth + 1)
    | .RightCurlyBracket => topLevelKeys rest (depth - 1)
    | .RightSquareBracket => topLevelKeys rest (depth - 1)
    | .String =>
      if depth = 0 then t.mValue.getD [] :: topLevelKeys rest depth
      else topLevelKeys rest depth
    | _ => topLevelKeys rest depth

/-- The BIN input of claim C2:
`16 00 00 00 02 68 65 6C 6C 6F 00 06 00 00 00 77 6F 72 6C 64 00 00`. -/
def c2InputBytes : Bytes :=
  [0x16, 0x00, 0x00, 0x00, 0x02, 0x68, 0x65, 0x6C, 0x6C, 0x6F, 0x00,
   0x06, 0x00, 0x00, 0x00, 0x77, 0x6F, 0x72, 0x6C, 0x64, 0x00, 0x00]

/-- The Value `Object{hello -> String("world")}`. -/
def c2Value : havJSONData :=
  .mk .Object (.vObject [(asciiBytes "hello", .mk .String (.vString (asciiBytes "world")))])

end HavJSONModel

namespace HavJSONModel

/-- C1 (code bug): the TEXT round-trip property `parse(toText(V, compact)) ≡ V`
fails for the builder-constructible value obtained from the input
`{"a":-0}`: parsing yields `Object{a -> Int(0)}` (the negative literal is
routed through the signed `stoi` chain), compact serialization renders it
as `{"a":0}`, and re-parsing that text yields `Object{a -> UInt(0)}` — a
different kind at the `a` node, on both a 64-bit-`long` and a
32-bit-`long` platform. -/
theorem c1_roundtrip_fails_on_minus_zero (dbl : DoubleModel) :
    ParseContent 64 dbl (asciiBytes "\x7b\"a\":-0\x7d") =
      .ok (some (.mk .Object (.vObject [(asciiBytes "a", .mk .Int (.vInt 0))]))) ∧
    ConvertJSONToString dbl (.mk .Object (.vObject [(asciiBytes "a", .mk .Int (.vInt 0))])) =
      .ok (some (asciiBytes "\x7b\"a\":0\x7d")) ∧
    ParseContent 64 dbl (asciiBytes "\x7b\"a\":0\x7d") =
      .ok (some (.mk .Object (.vObject [(asciiBytes "a", .mk .UInt (.vUInt 0))]))) ∧
    ParseContent 32 dbl (asciiBytes "\x7b\"a\":-0\x7d") =
      .ok (some (.mk .Object (.vObject [(asciiBytes "a", .mk .Int (.vInt 0))]))) ∧
    ParseContent 32 dbl (asciiBytes "\x7b\"a\":0\x7d") =
      .ok (some (.mk .Object (.vObject [(asciiBytes "a", .mk .UInt (.vUInt 0))]))) ∧
    havJSONDataType.Int ≠ havJSONDataType.UInt :=
  ⟨by rfl, by rfl, by rfl, by rfl, by rfl, by decide⟩

/-- C2: decoding the 22-byte BIN document yields the text
`{"hello": "world"}`, which parses to `Object{hello -> String("world")}`,
and encoding that Value back to BIN (with the leading four-byte total
length) reproduces exactly the 22 input bytes — for any platform `long`
width and any double model (neither is consulted on this input). -/
theorem c2_bin_roundtrip (longBits : Nat) (dbl : DoubleModel) :
    ConvertBSONToJSON dbl c2InputBytes = .ok (asciiBytes "\x7b\"hello\": \"world\"\x7d") ∧
    ParseContent longBits dbl (asciiBytes "\x7b\"hello\": \"world\"\x7d") = .ok (some c2Value) ∧
    WriteBSONFileBytes longBits dbl c2Value = .ok c2InputBytes :=
  ⟨by rfl, by rfl, by rfl⟩

/-- C4 (counterexample): on an LP64 platform (64-bit `long`), parsing
`{"n":-9223372036854775808}` succeeds with no widening error but the
value stored under `n` has kind `Long` (the wide kind), not `Int64` as
the claim states. -/
theorem c4_counterexample :
    ParseContent 64 trivialDouble (asciiBytes "\x7b\"n\":-9223372036854775808\x7d") =
      .ok (some (.mk .Object
        (.vObject [(asciiBytes "n", .mk .Long (.vLong (-9223372036854775808)))]))) ∧
    havJSONDataType.Long ≠ havJSONDataType.Int64 :=
  ⟨by rfl, by decide⟩

/-- C4 (amended): parsing `{"n":-9223372036854775808}` succeeds with no
widening error and stores the value −9223372036854775808 under `n`; the
kind is `Int64` on platforms where `long` is 32 bits (the `stoi` and
`stol` conversions both overflow) and the wide kind `Long` on platforms
where `long` is 64 bits (where `stol` already fits). -/
theorem c4_amended (dbl : DoubleModel) :
    ParseContent 32 dbl (asciiBytes "\x7b\"n\":-9223372036854775808\x7d") =
      .ok (some (.mk .Object
        (.vObject [(asciiBytes "n", .mk .Int64 (.vInt64 (-9223372036854775808)))]))) ∧
    ParseContent 64 dbl (asciiBytes "\x7b\"n\":-9223372036854775808\x7d") =
      .ok (some (.mk .Object
        (.vObject [(asciiBytes "n", .mk .Long (.vLong (-9223372036854775808)))]))) :=
  ⟨by rfl, by rfl⟩

/-- C6 (counterexample): a string literal whose `\u` escape is followed
by a non-hexadecimal character does not make lexing fail: scanning the
string contents `\uQZZZ` (then the closing quote) succeeds and emits the
characters literally (`uQZZZ`). -/
theorem c6_counterexample :
    CheckForString (asciiBytes "\\uQZZZ\"") =
      .ok (⟨.Value, some (asciiBytes "uQZZZ")⟩, []) := by rfl

/-- C9: for every (well-typed) Object value and every key, `remove(key)`
returns normally and leaves the object's contents unchanged: the member
map is fetched by value (`auto value = std::get<...>(mValue)`), the
`find`/`erase` act on that local copy (returned here as the second
component, with the key actually erased from it), and the member is
never written. -/
theorem c9_remove_is_noop (m : List (Bytes × havJSONData)) (key : Bytes) :
    (havJSONData.mk .Object (.vObject m)).remove key =
      .ok (.mk .Object (.vObject m), mapEraseIfFound key m) := by rfl

/-- C10: `clear()` throws on every Value: for well-typed arrays and
objects the container is emptied in place and the "Value is not an array
or object!" exception is still raised afterwards (the mutation takes
effect even though the call reports an error); every other value throws
without modification (a container type tag over a mismatched payload
throws `bad_variant_access` from `std::get`). -/
theorem c10_clear_always_throws (xs : List havJSONData)
    (es : List (Bytes × havJSONData)) (d : havJSONData) :
    (havJSONData.mk .Array (.vArray xs)).clear =
      (.mk .Array (.vArray []), asciiBytes "Value is not an array or object!") ∧
    (havJSONData.mk .Object (.vObject es)).clear =
      (.mk .Object (.vObject []), asciiBytes "Value is not an array or object!") ∧
    (d.clear.2 = asciiBytes "Value is not an array or object!" ∨
     d.clear.2 = asciiBytes "bad_variant_access") := by
  refine ⟨rfl, rfl, ?_⟩
  rcases d with ⟨t, v⟩
  cases t <;> cases v <;> simp [havJSONData.clear]

end HavJSONModel

namespace HavJSONModel

/-- Reading four hexadecimal digit characters succeeds and returns the
rest of the stream. -/
theorem readHex4Loop_success (h1 h2 h3 h4 : Nat) (rest : Bytes)
    (H1 : isHexDigitChar h1 = true) (H2 : isHexDigitChar h2 = true)
    (H3 : isHexDigitChar h3 = true) (H4 : isHexDigitChar h4 = true) :
    readHex4Loop 4 [] (h1 :: h2 :: h3 :: h4 :: rest) = .ok (.success [h1, h2, h3, h4] rest) := by
  simp [readHex4Loop, H1, H2, H3, H4]

/-- Reading up to four hexadecimal digits stops at the first non-hex
character and reports failure with the digits collected so far. -/
theorem readHex4Loop_failure (hs : Bytes) :
    ∀ (k : Nat) (acc : Bytes) (c : Nat) (r : Bytes),
    hs.length < k → (∀ x ∈ hs, isHexDigitChar x = true) → isHexDigitChar c = false →
    readHex4Loop k acc (hs ++ c :: r) = .ok (.failure (acc ++ hs) (c :: r)) := by
  induction hs with
  | nil =>
    intro k acc c r hk _ hc
    match k, hk with
    | k + 1, _ => simp [readHex4Loop, hc]
  | cons h hs ih =>
    intro k acc c r hk hhex hc
    match k, hk with
    | k + 1, hk =>
      have hh : isHexDigitChar h = true := hhex h (by simp)
      have : readHex4Loop (k + 1) acc ((h :: hs) ++ c :: r)
          = readHex4Loop k (acc ++ [h]) (hs ++ c :: r) := by
        simp [readHex4Loop, hh]
      rw [this, ih k (acc ++ [h]) c r (by simpa using hk)
        (fun x hx => hhex x (by simp [hx])) hc]
      simp

end HavJSONModel

namespace HavJSONModel

theorem or_240_of_lt (t : Nat) (h : t < 8) : t ||| 240 = 240 + t :=
  (by decide : ∀ x : Fin 8, x.val ||| 240 = 240 + x.val) ⟨t, h⟩

theorem or_224_of_lt (t : Nat) (h : t < 16) : t ||| 224 = 224 + t :=
  (by decide : ∀ x : Fin 16, x.val ||| 224 = 224 + x.val) ⟨t, h⟩

theorem or_192_of_lt (t : Nat) (h : t < 32) : t ||| 192 = 192 + t :=
  (by decide : ∀ x : Fin 32, x.val ||| 192 = 192 + x.val) ⟨t, h⟩

theorem or_128_of_lt (t : Nat) (h : t < 64) : t ||| 128 = 128 + t :=
  (by decide : ∀ x : Fin 64, x.val ||| 128 = 128 + x.val) ⟨t, h⟩

theorem and_63_eq_mod (x : Nat) : x &&& 63 = x % 64 := by
  rw [show (63 : Nat) = 2 ^ 6 - 1 from rfl, Nat.and_pow_two_sub_one_eq_mod]

theorem shiftRight_div (x k : Nat) : x >>> k = x / 2 ^ k := Nat.shiftRight_eq_div_pow x k

/-- `CodePointToString` agrees with the minimal UTF-8 encoding on
supplementary-plane code points. -/
theorem CodePointToString_supplementary (cp : Nat)
    (hlo : 0x10000 ≤ cp) (hhi : cp ≤ 0x10ffff) :
    CodePointToString cp = utf8Encode cp := by
  have h1 : ¬ cp < 0x80 := by omega
  have h2 : ¬ cp < 0x800 := by omega
  have h3 : ¬ cp < 0x10000 := by omega
  have h4 : cp < 0x110000 := by omega
  have hd18 : cp >>> 18 = cp / 262144 := by rw [shiftRight_div]; norm_num
  have hd12 : cp >>> 12 = cp / 4096 := by rw [shiftRight_div]; norm_num
  have hd6 : cp >>> 6 = cp / 64 := by rw [shiftRight_div]; norm_num
  have hb1 : (cp >>> 18) ||| 0xf0 = 240 + cp / 262144 := by
    rw [hd18]; exact or_240_of_lt _ (by omega)
  have hb2 : ((cp >>> 12) &&& 0x3f) ||| 0x80 = 128 + cp / 4096 % 64 := by
    rw [hd12, show (0x3f : Nat) = 63 from rfl, and_63_eq_mod]
    exact or_128_of_lt _ (Nat.mod_lt _ (by norm_num))
  have hb3 : ((cp >>> 6) &&& 0x3f) ||| 0x80 = 128 + cp / 64 % 64 := by
    rw [hd6, show (0x3f : Nat) = 63 from rfl, and_63_eq_mod]
    exact or_128_of_lt _ (Nat.mod_lt _ (by norm_num))
  have hb4 : (cp &&& 0x3f) ||| 0x80 = 128 + cp % 64 := by
    rw [show (0x3f : Nat) = 63 from rfl, and_63_eq_mod]
    exact or_128_of_lt _ (Nat.mod_lt _ (by norm_num))
  unfold CodePointToString utf8Encode
  simp only [if_neg h1, if_neg h2, if_neg h3, if_pos h4, hb1, hb2, hb3, hb4]
  have e1 : (240 + cp / 262144 : Nat) ≠ 0 := by omega
  have e2 : (128 + cp / 4096 % 64 : Nat) ≠ 0 := by omega
  have e3 : (128 + cp / 64 % 64 : Nat) ≠ 0 := by omega
  have e4 : (128 + cp % 64 : Nat) ≠ 0 := by omega
  simp [List.takeWhile, e1, e2, e3, e4]

end HavJSONModel

namespace HavJSONModel

/-- C5: whenever the string scanner meets a `\uXXXX` escape whose value
lies in the high-surrogate range `D800..DBFF` immediately followed by a
`\uXXXX` escape in the low-surrogate range `DC00..DFFF`, it appends to
the decoded string exactly the UTF-8 encoding of the single code point
`0x10000 + (high - 0xD800) * 0x400 + (low - 0xDC00)` and continues after
the pair. -/
theorem c5_surrogate_pair_combines (fuel : Nat) (acc rest : Bytes)
    (h1 h2 h3 h4 l1 l2 l3 l4 : Nat)
    (Hh : ∀ x ∈ [h1, h2, h3, h4], isHexDigitChar x = true)
    (Hl : ∀ x ∈ [l1, l2, l3, l4], isHexDigitChar x = true)
    (Hhi1 : 0xd800 ≤ hexValue [h1, h2, h3, h4])
    (Hhi2 : hexValue [h1, h2, h3, h4] ≤ 0xdbff)
    (Hlo1 : 0xdc00 ≤ hexValue [l1, l2, l3, l4])
    (Hlo2 : hexValue [l1, l2, l3, l4] ≤ 0xdfff) :
    checkForStringLoop (fuel + 1)
      (92 :: 117 :: h1 :: h2 :: h3 :: h4 :: 92 :: 117 :: l1 :: l2 :: l3 :: l4 :: rest) acc =
    checkForStringLoop fuel rest
      (acc ++ utf8Encode
        (0x10000 + (hexValue [h1, h2, h3, h4] - 0xd800) * 0x400 +
          (hexValue [l1, l2, l3, l4] - 0xdc00))) := by
  have H1 := Hh h1 (by simp); have H2 := Hh h2 (by simp)
  have H3 := Hh h3 (by simp); have H4 := Hh h4 (by simp)
  have L1 := Hl l1 (by simp); have L2 := Hl l2 (by simp)
  have L3 := Hl l3 (by simp); have L4 := Hl l4 (by simp)
  have hcp : CodePointToString
      (0x10000 + (hexValue [h1, h2, h3, h4] - 0xd800) * 0x400 +
        (hexValue [l1, l2, l3, l4] - 0xdc00)) =
      utf8Encode (0x10000 + (hexValue [h1, h2, h3, h4] - 0xd800) * 0x400 +
        (hexValue [l1, l2, l3, l4] - 0xdc00)) :=
    CodePointToString_supplementary _ (by omega) (by omega)
  have hstep : escapeUStep (h1 :: h2 :: h3 :: h4 :: 92 :: 117 :: l1 :: l2 :: l3 :: l4 :: rest) =
      .ok (utf8Encode
        (0x10000 + (hexValue [h1, h2, h3, h4] - 0xd800) * 0x400 +
          (hexValue [l1, l2, l3, l4] - 0xdc00)), rest) := by
    simp only [escapeUStep, readHex4Loop_success h1 h2 h3 h4 _ H1 H2 H3 H4,
      readHex4Loop_success l1 l2 l3 l4 _ L1 L2 L3 L4]
    simp [Hhi1, Hhi2, Hlo1, Hlo2, hcp]
  rw [checkForStringLoop]
  simp [hstep]

/-- Closed witness for `c5_surrogate_pair_combines`, at the escape pair
`😀` (U+1F600). -/
theorem c5_witness :
    checkForStringLoop 1
      (92 :: 117 :: 100 :: 56 :: 51 :: 100 :: 92 :: 117 :: 100 :: 101 :: 48 :: 48 :: []) [] =
    checkForStringLoop 0 []
      ([] ++ utf8Encode
        (0x10000 + (hexValue [100, 56, 51, 100] - 0xd800) * 0x400 +
          (hexValue [100, 101, 48, 48] - 0xdc00))) :=
  c5_surrogate_pair_combines 0 [] [] 100 56 51 100 100 101 48 48
    (by decide) (by decide) (by decide) (by decide) (by decide) (by decide)

end HavJSONModel

namespace HavJSONModel

/-- C6 (amended): a `\u` escape whose next four characters are not all
hexadecimal digits does not fail: the scanner emits the `u` and the
digits collected before the first non-hex character literally and
resumes there.  The low-surrogate error is raised only when a complete
`\uXXXX` escape is followed by `\u` and a malformed hex group. -/
theorem c6_nonhex_after_u_is_literal :
    (∀ (fuel : Nat) (acc hs : Bytes) (c : Nat) (r : Bytes),
      hs.length < 4 → (∀ x ∈ hs, isHexDigitChar x = true) → isHexDigitChar c = false →
      checkForStringLoop (fuel + 1) (92 :: 117 :: (hs ++ c :: r)) acc =
        checkForStringLoop fuel (c :: r) (acc ++ 117 :: hs)) ∧
    (∀ (fuel : Nat) (acc : Bytes) (h1 h2 h3 h4 : Nat) (hs2 : Bytes) (c : Nat) (r : Bytes),
      (∀ x ∈ [h1, h2, h3, h4], isHexDigitChar x = true) →
      hs2.length < 4 → (∀ x ∈ hs2, isHexDigitChar x = true) → isHexDigitChar c = false →
      checkForStringLoop (fuel + 1)
        (92 :: 117 :: h1 :: h2 :: h3 :: h4 :: 92 :: 117 :: (hs2 ++ c :: r)) acc =
        .error (asciiBytes "Invalid code point for UTF-16 low surrogate pair!")) := by
  constructor
  · intro fuel acc hs c r hlen hhex hc
    have hstep : escapeUStep (hs ++ c :: r) = .ok (117 :: hs, c :: r) := by
      simp only [escapeUStep, readHex4Loop_failure hs 4 [] c r hlen hhex hc]
      simp
    rw [checkForStringLoop]
    simp [hstep]
  · intro fuel acc h1 h2 h3 h4 hs2 c r Hh hlen hhex hc
    have H1 := Hh h1 (by simp); have H2 := Hh h2 (by simp)
    have H3 := Hh h3 (by simp); have H4 := Hh h4 (by simp)
    have hstep : escapeUStep (h1 :: h2 :: h3 :: h4 :: 92 :: 117 :: (hs2 ++ c :: r)) =
        .error (asciiBytes "Invalid code point for UTF-16 low surrogate pair!") := by
      simp only [escapeUStep, readHex4Loop_success h1 h2 h3 h4 _ H1 H2 H3 H4,
        readHex4Loop_failure hs2 4 [] c r hlen hhex hc]
      simp
    rw [checkForStringLoop]
    simp [hstep]

/-- Closed witness for `c6_nonhex_after_u_is_literal`: the escape
`\uQ` resumes literally, and `\u0041\uQ` raises the low-surrogate
error. -/
theorem c6_nonhex_witness :
    (checkForStringLoop 1 (92 :: 117 :: ([] ++ 81 :: [34])) [] =
      checkForStringLoop 0 (81 :: [34]) ([] ++ 117 :: [])) ∧
    (checkForStringLoop 1
        (92 :: 117 :: 48 :: 48 :: 52 :: 49 :: 92 :: 117 :: ([] ++ 81 :: [34])) [] =
      .error (asciiBytes "Invalid code point for UTF-16 low surrogate pair!")) :=
  ⟨c6_nonhex_after_u_is_literal.1 0 [] [] 81 [34] (by decide) (by decide) (by decide),
   c6_nonhex_after_u_is_literal.2 0 [] 48 48 52 49 [] 81 [34]
     (by decide) (by decide) (by decide) (by decide)⟩

end HavJSONModel

namespace HavJSONModel

theorem natAbs_cast_nat (n : Nat) : ((n : Int)).natAbs = n := Int.natAbs_ofNat n

theorem emod_toNat_cast (n w : Nat) : (((n : Int)).emod ((2 : Int) ^ w)).toNat = n % 2 ^ w := by
  have h : ((n : Int)).emod ((2 : Int) ^ w) = ((n % 2 ^ w : Nat) : Int) := by
    push_cast
    rfl
  rw [h, Int.toNat_natCast]

/-- C3: the number classifier: a literal containing `.`, `e` or `E` is a
Double re-emitted at fixed 15-digit precision; a literal starting with
`-` is classified as the narrowest of Int (32-bit), Long
(platform-width) and Int64 that fits its value; any other literal as the
narrowest of UInt (32-bit), ULong (platform-width) and UInt64 that fits,
widening only on overflow of the narrower conversion. -/
theorem c3_number_classification :
    (∀ (longBits : Nat) (dbl : DoubleModel) (lit : Bytes) (d : Bytes),
      (lit.contains 46 || (lit.contains 101 || lit.contains 69)) = true →
      dbl.stod lit = some d →
      classifyNumber longBits dbl lit = .ok ⟨.Double, some (dbl.fixed15 d)⟩) ∧
    (∀ (longBits : Nat) (dbl : DoubleModel) (lit : Bytes) (v : Int),
      32 ≤ longBits →
      byteAt lit 0 = 45 →
      (lit.contains 46 || (lit.contains 101 || lit.contains 69)) = false →
      strtolIdeal lit = some v → fitsSigned 64 v = true →
      classifyNumber longBits dbl lit =
        .ok ⟨if fitsSigned 32 v then .Int
             else if fitsSigned longBits v then .Long
             else .Int64, some (decString v)⟩) ∧
    (∀ (longBits : Nat) (dbl : DoubleModel) (lit : Bytes) (n : Nat),
      32 ≤ longBits →
      ¬ byteAt lit 0 = 45 →
      (lit.contains 46 || (lit.contains 101 || lit.contains 69)) = false →
      strtolIdeal lit = some (n : Int) → n < 2 ^ 64 →
      classifyNumber longBits dbl lit =
        .ok ⟨if n < 2 ^ 32 then .UInt
             else if n < 2 ^ longBits then .ULong
             else .UInt64, some (decStringN n)⟩) := by
  refine ⟨?_, ?_, ?_⟩
  · intro longBits dbl lit d hdot hstod
    by_cases hsign : byteAt lit 0 = 45 <;>
      · simp only [classifyNumber, hsign, hdot, hstod]
        simp
  · intro longBits dbl lit v h32 hsign hdot hstrtol hfit
    by_cases h1 : fitsSigned 32 v = true
    · have hstoi : stoiM lit = .ok v := by simp [stoiM, hstrtol, h1]
      simp only [classifyNumber, hdot, hsign, hstoi]
      simp [h1]
    · have hstoi : stoiM lit = .error .outOfRange := by simp [stoiM, hstrtol, h1]
      by_cases h2 : fitsSigned longBits v = true
      · have hstol : stolM longBits lit = .ok v := by simp [stolM, hstrtol, h2]
        simp only [classifyNumber, hdot, hsign, hstoi, hstol]
        simp [h1, h2]
      · have hstol : stolM longBits lit = .error .outOfRange := by
          simp [stolM, hstrtol, h2]
        have hstoll : stollM lit = .ok v := by simp [stollM, hstrtol, hfit]
        simp only [classifyNumber, hdot, hsign, hstoi, hstol, hstoll]
        simp [h1, h2]
  · intro longBits dbl lit n h32 hsign hdot hstrtol hn
    have hpow : 2 ^ 32 ≤ 2 ^ longBits := Nat.pow_le_pow_right (by norm_num) h32
    by_cases c1 : n < 2 ^ 32
    · have hne : ¬ n > 2 ^ longBits - 1 := by omega
      have hstoul : stoulM longBits lit = .ok n := by
        simp [stoulM, stoulW, hstrtol, natAbs_cast_nat, emod_toNat_cast, hne,
          Nat.mod_eq_of_lt (by omega : n < 2 ^ longBits)]
      have hsmall : ¬ n > 0xffffffff := by omega
      simp only [classifyNumber, hsign, hdot, hstoul]
      simp [hsmall, show n < 4294967296 by omega]
    · by_cases c2 : n < 2 ^ longBits
      · have hne : ¬ n > 2 ^ longBits - 1 := by omega
        have hstoul : stoulM longBits lit = .ok n := by
          simp [stoulM, stoulW, hstrtol, natAbs_cast_nat, emod_toNat_cast, hne,
            Nat.mod_eq_of_lt c2]
        have hbig : n > 0xffffffff := by omega
        simp only [classifyNumber, hsign, hdot, hstoul]
        simp [hbig, show ¬ n < 4294967296 by omega, c2]
      · have hstoul : stoulM longBits lit = .error .outOfRange := by
          simp only [stoulM, stoulW, hstrtol]
          rw [if_pos (by rw [natAbs_cast_nat]; omega)]
        have hstoull : stoullM lit = .ok n := by
          simp only [stoullM, stoulW, hstrtol]
          rw [if_neg (by rw [natAbs_cast_nat]; omega), emod_toNat_cast,
            Nat.mod_eq_of_lt hn]
        simp only [classifyNumber, hsign, hdot, hstoul, hstoull]
        simp [show ¬ n < 4294967296 by omega, c2]

/-- Closed witness for `c3_number_classification`: the literals `1.5`
(Double), `-5` (Int) and `5` (UInt). -/
theorem c3_witness :
    ([49, 46, 53].contains 46 || ([49, 46, 53].contains 101 || [49, 46, 53].contains 69)) = true ∧
    classifyNumber 64 ⟨fun _ => some [49], fun d => d, fun d => d, fun d => d, fun d => d⟩
      [49, 46, 53] = .ok ⟨.Double, some [49]⟩ ∧
    classifyNumber 64 trivialDouble [45, 53] =
      .ok ⟨if fitsSigned 32 (-5) then .Int
           else if fitsSigned 64 (-5) then .Long
           else .Int64, some (decString (-5))⟩ ∧
    classifyNumber 64 trivialDouble [53] =
      .ok ⟨if (5 : Nat) < 2 ^ 32 then .UInt
           else if (5 : Nat) < 2 ^ 64 then .ULong
           else .UInt64, some (decStringN 5)⟩ :=
  ⟨by decide,
   c3_number_classification.1 64 _ [49, 46, 53] [49] (by decide) rfl,
   c3_number_classification.2.1 64 trivialDouble [45, 53] (-5) (by decide) (by decide)
     (by decide) (by decide) (by decide),
   c3_number_classification.2.2 64 trivialDouble [53] 5 (by decide) (by decide)
     (by decide) (by decide) (by decide)⟩

end HavJSONModel

namespace HavJSONModel

/-- Shifted-or as arithmetic: `(a <<< k) ||| y = 2^k * a + y` for `y < 2^k`. -/
theorem lor_shift_add (k a y : Nat) (hy : y < 2 ^ k) : (a <<< k) ||| y = 2 ^ k * a + y := by
  apply Nat.eq_of_testBit_eq
  intro i
  rw [Nat.testBit_lor, Nat.testBit_shiftLeft, Nat.testBit_mul_pow_two_add a hy i]
  by_cases hik : k ≤ i
  · have hyf : y.testBit i = false :=
      Nat.testBit_lt_two_pow (lt_of_lt_of_le hy (Nat.pow_le_pow_right (by norm_num) hik))
    simp [hik, hyf, Nat.not_lt.mpr hik]
  · simp [hik, Nat.lt_of_not_le hik]

theorem escClassify_ascii : ∀ x : Fin 128,
    escClassify x.val = some (1, decide (x.val < 0x1f), if x.val < 0x1f then x.val else 0) := by
  decide

theorem lead2a : ∀ x : Fin 32, (192 + x.val) &&& 128 = 128 := by decide
theorem lead2b : ∀ x : Fin 32, (192 + x.val) &&& 224 = 192 := by decide
theorem lead2c : ∀ x : Fin 32, (192 + x.val) &&& 31 = x.val := by decide
theorem lead3a : ∀ x : Fin 16, (224 + x.val) &&& 128 = 128 := by decide
theorem lead3b : ∀ x : Fin 16, (224 + x.val) &&& 224 = 224 := by decide
theorem lead3c : ∀ x : Fin 16, (224 + x.val) &&& 240 = 224 := by decide
theorem lead3d : ∀ x : Fin 16, (224 + x.val) &&& 15 = x.val := by decide
theorem lead4a : ∀ x : Fin 5, (240 + x.val) &&& 128 = 128 := by decide
theorem lead4b : ∀ x : Fin 5, (240 + x.val) &&& 224 = 224 := by decide
theorem lead4c : ∀ x : Fin 5, (240 + x.val) &&& 240 = 240 := by decide
theorem lead4d : ∀ x : Fin 5, (240 + x.val) &&& 248 = 240 := by decide
theorem lead4e : ∀ x : Fin 5, (240 + x.val) &&& 7 = x.val := by decide
theorem cont2a : ∀ x : Fin 64, (128 + x.val) &&& 192 = 128 := by decide
theorem cont2b : ∀ x : Fin 64, (128 + x.val) &&& 63 = x.val := by decide

/-- One step of the escaping loop on a single-byte (ASCII) code
point. -/
theorem esc_step_ascii (fuel : Nat) (cp : Nat) (rest : Bytes) (h1 : cp < 0x80) :
    convertToEscapedStringLoop (fuel + 1) (utf8Encode cp ++ rest) =
      (convertToEscapedStringLoop fuel rest).map (fun r => escapeCodePoint cp ++ r) := by
  have he : utf8Encode cp = [cp] := by simp [utf8Encode, h1]
  rw [he]
  by_cases e1 : cp = 34
  · subst e1; rfl
  by_cases e2 : cp = 92
  · subst e2; rfl
  by_cases e3 : cp = 8
  · subst e3; rfl
  by_cases e4 : cp = 12
  · subst e4; rfl
  by_cases e5 : cp = 10
  · subst e5; rfl
  by_cases e6 : cp = 13
  · subst e6; rfl
  by_cases e7 : cp = 9
  · subst e7; rfl
  by_cases e8 : cp = 11
  · subst e8; rfl
  have hcl : escClassify cp = some (1, decide (cp < 0x1f), if cp < 0x1f then cp else 0) :=
    escClassify_ascii ⟨cp, h1⟩
  rw [List.singleton_append, convertToEscapedStringLoop]
  simp only [if_neg e1, if_neg e2, if_neg e3, if_neg e4, if_neg e5, if_neg e6,
    if_neg e7, if_neg e8, hcl]
  by_cases hlo : cp < 0x1f
  · have hbig : ¬ (0x10000 ≤ cp) := by omega
    simp [hlo, escContinuation, escHexEmit, hbig, escapeCodePoint,
      e1, e2, e3, e4, e5, e6, e7, e8]
  · simp [hlo, escContinuation, escapeCodePoint, e1, e2, e3, e4, e5, e6, e7, e8, h1]

/-- One step of the escaping loop on a two-byte code point. -/
theorem esc_step_two (fuel : Nat) (cp : Nat) (rest : Bytes)
    (h1 : ¬ cp < 0x80) (h2 : cp < 0x800) :
    convertToEscapedStringLoop (fuel + 1) (utf8Encode cp ++ rest) =
      (convertToEscapedStringLoop fuel rest).map (fun r => escapeCodePoint cp ++ r) := by
  have he : utf8Encode cp = [0xc0 + cp / 64, 0x80 + cp % 64] := by
    simp [utf8Encode, h1, h2]
  rw [he, List.cons_append, List.singleton_append, convertToEscapedStringLoop]
  have hclass : escClassify (0xc0 + cp / 64) = some (2, true, cp / 64) := by
    have ha := lead2a ⟨cp / 64, by omega⟩
    have hb := lead2b ⟨cp / 64, by omega⟩
    have hc := lead2c ⟨cp / 64, by omega⟩
    simp only [Fin.val_mk] at ha hb hc
    simp [escClassify, ha, hb, hc]
  have hcont : escContinuation 1 (cp / 64) ((0x80 + cp % 64) :: rest) = .ok (cp, rest) := by
    have hd := cont2a ⟨cp % 64, by omega⟩
    have he2 := cont2b ⟨cp % 64, by omega⟩
    simp only [Fin.val_mk] at hd he2
    simp only [escContinuation, hd, List.tail_cons, if_pos rfl, he2,
      lor_shift_add 6 (cp / 64) (cp % 64) (by omega)]
    norm_num
    omega
  have hemit : escHexEmit cp = [92, 117] ++ hexPad 4 cp := by
    simp [escHexEmit, show ¬ (0x10000 ≤ cp) by omega]
  have hescape : escapeCodePoint cp = [92, 117] ++ hexPad 4 cp := by
    simp [escapeCodePoint, show ¬ (cp = 34) by omega, show ¬ (cp = 92) by omega,
      show ¬ (cp = 8) by omega, show ¬ (cp = 12) by omega, show ¬ (cp = 10) by omega,
      show ¬ (cp = 13) by omega, show ¬ (cp = 9) by omega, show ¬ (cp = 11) by omega,
      show ¬ (cp < 0x1f) by omega, show ¬ (cp < 0x80) by omega,
      show cp < 0x10000 by omega]
  simp only [if_neg (show ¬ (0xc0 + cp / 64 = 34) by omega),
    if_neg (show ¬ (0xc0 + cp / 64 = 92) by omega),
    if_neg (show ¬ (0xc0 + cp / 64 = 8) by omega),
    if_neg (show ¬ (0xc0 + cp / 64 = 12) by omega),
    if_neg (show ¬ (0xc0 + cp / 64 = 10) by omega),
    if_neg (show ¬ (0xc0 + cp / 64 = 13) by omega),
    if_neg (show ¬ (0xc0 + cp / 64 = 9) by omega),
    if_neg (show ¬ (0xc0 + cp / 64 = 11) by omega),
    hclass, hcont, hescape]
  simp [hemit]

/-- One step of the escaping loop on a three-byte code point. -/
theorem esc_step_three (fuel : Nat) (cp : Nat) (rest : Bytes)
    (h2 : ¬ cp < 0x800) (h3 : cp < 0x10000) :
    convertToEscapedStringLoop (fuel + 1) (utf8Encode cp ++ rest) =
      (convertToEscapedStringLoop fuel rest).map (fun r => escapeCodePoint cp ++ r) := by
  have h1 : ¬ cp < 0x80 := by omega
  have he : utf8Encode cp = [0xe0 + cp / 4096, 0x80 + cp / 64 % 64, 0x80 + cp % 64] := by
    simp [utf8Encode, h1, h2, h3]
  rw [he, List.cons_append, List.cons_append, List.singleton_append,
    convertToEscapedStringLoop]
  have hclass : escClassify (0xe0 + cp / 4096) = some (3, true, cp / 4096) := by
    have ha := lead3a ⟨cp / 4096, by omega⟩
    have hb := lead3b ⟨cp / 4096, by omega⟩
    have hc := lead3c ⟨cp / 4096, by omega⟩
    have hd := lead3d ⟨cp / 4096, by omega⟩
    simp only [Fin.val_mk] at ha hb hc hd
    simp [escClassify, ha, hb, hc, hd]
  have hcont : escContinuation 2 (cp / 4096)
      ((0x80 + cp / 64 % 64) :: (0x80 + cp % 64) :: rest) = .ok (cp, rest) := by
    have hd1 := cont2a ⟨cp / 64 % 64, by omega⟩
    have he1 := cont2b ⟨cp / 64 % 64, by omega⟩
    have hd2 := cont2a ⟨cp % 64, by omega⟩
    have he2 := cont2b ⟨cp % 64, by omega⟩
    simp only [Fin.val_mk] at hd1 he1 hd2 he2
    simp only [escContinuation, hd1, hd2, List.tail_cons, if_pos rfl, he1, he2,
      lor_shift_add 6 (cp / 4096) (cp / 64 % 64) (by omega)]
    norm_num
    rw [show 64 * (cp / 4096) + cp / 64 % 64 = cp / 64 by omega,
      lor_shift_add 6 (cp / 64) (cp % 64) (by omega)]
    norm_num
    omega
  have hemit : escHexEmit cp = [92, 117] ++ hexPad 4 cp := by
    simp [escHexEmit, show ¬ (0x10000 ≤ cp) by omega]
  have hescape : escapeCodePoint cp = [92, 117] ++ hexPad 4 cp := by
    simp [escapeCodePoint, show ¬ (cp = 34) by omega, show ¬ (cp = 92) by omega,
      show ¬ (cp = 8) by omega, show ¬ (cp = 12) by omega, show ¬ (cp = 10) by omega,
      show ¬ (cp = 13) by omega, show ¬ (cp = 9) by omega, show ¬ (cp = 11) by omega,
      show ¬ (cp < 0x1f) by omega, show ¬ (cp < 0x80) by omega, h3]
  simp only [if_neg (show ¬ (0xe0 + cp / 4096 = 34) by omega),
    if_neg (show ¬ (0xe0 + cp / 4096 = 92) by omega),
    if_neg (show ¬ (0xe0 + cp / 4096 = 8) by omega),
    if_neg (show ¬ (0xe0 + cp / 4096 = 12) by omega),
    if_neg (show ¬ (0xe0 + cp / 4096 = 10) by omega),
    if_neg (show ¬ (0xe0 + cp / 4096 = 13) by omega),
    if_neg (show ¬ (0xe0 + cp / 4096 = 9) by omega),
    if_neg (show ¬ (0xe0 + cp / 4096 = 11) by omega),
    hclass, hcont, hescape]
  simp [hemit]

/-- One step of the escaping loop on a four-byte code point. -/
theorem esc_step_four (fuel : Nat) (cp : Nat) (rest : Bytes)
    (h3 : ¬ cp < 0x10000) (hcp : cp ≤ 0x10ffff) :
    convertToEscapedStringLoop (fuel + 1) (utf8Encode cp ++ rest) =
      (convertToEscapedStringLoop fuel rest).map (fun r => escapeCodePoint cp ++ r) := by
  have h1 : ¬ cp < 0x80 := by omega
  have h2 : ¬ cp < 0x800 := by omega
  have he : utf8Encode cp =
      [0xf0 + cp / 262144, 0x80 + cp / 4096 % 64, 0x80 + cp / 64 % 64, 0x80 + cp % 64] := by
    simp [utf8Encode, h1, h2, h3]
  rw [he, List.cons_append, List.cons_append, List.cons_append, List.singleton_append,
    convertToEscapedStringLoop]
  have hclass : escClassify (0xf0 + cp / 262144) = some (4, true, cp / 262144) := by
    have ha := lead4a ⟨cp / 262144, by omega⟩
    have hb := lead4b ⟨cp / 262144, by omega⟩
    have hc := lead4c ⟨cp / 262144, by omega⟩
    have hd := lead4d ⟨cp / 262144, by omega⟩
    have hv := lead4e ⟨cp / 262144, by omega⟩
    simp only [Fin.val_mk] at ha hb hc hd hv
    simp [escClassify, ha, hb, hc, hd, hv]
  have hcont : escContinuation 3 (cp / 262144)
      ((0x80 + cp / 4096 % 64) :: (0x80 + cp / 64 % 64) :: (0x80 + cp % 64) :: rest) =
      .ok (cp, rest) := by
    have hd1 := cont2a ⟨cp / 4096 % 64, by omega⟩
    have he1 := cont2b ⟨cp / 4096 % 64, by omega⟩
    have hd2 := cont2a ⟨cp / 64 % 64, by omega⟩
    have he2 := cont2b ⟨cp / 64 % 64, by omega⟩
    have hd3 := cont2a ⟨cp % 64, by omega⟩
    have he3 := cont2b ⟨cp % 64, by omega⟩
    simp only [Fin.val_mk] at hd1 he1 hd2 he2 hd3 he3
    simp only [escContinuation, hd1, hd2, hd3, List.tail_cons, if_pos rfl, he1, he2, he3,
      lor_shift_add 6 (cp / 262144) (cp / 4096 % 64) (by omega)]
    norm_num
    rw [show 64 * (cp / 262144) + cp / 4096 % 64 = cp / 4096 by omega,
      lor_shift_add 6 (cp / 4096) (cp / 64 % 64) (by omega)]
    norm_num
    rw [show 64 * (cp / 4096) + cp / 64 % 64 = cp / 64 by omega,
      lor_shift_add 6 (cp / 64) (cp % 64) (by omega)]
    norm_num
    omega
  have hemit : escHexEmit cp =
      [92, 117] ++ hexPad 4 ((cp - 0x10000) / 0x400 + 0xd800) ++
      [92, 117] ++ hexPad 4 ((cp - 0x10000) % 0x400 + 0xdc00) := by
    unfold escHexEmit
    rw [if_pos]
    rw [Bool.and_eq_true, decide_eq_true_eq, decide_eq_true_eq]
    exact ⟨by omega, hcp⟩
  have hescape : escapeCodePoint cp =
      [92, 117] ++ hexPad 4 ((cp - 0x10000) / 0x400 + 0xd800) ++
      [92, 117] ++ hexPad 4 ((cp - 0x10000) % 0x400 + 0xdc00) := by
    unfold escapeCodePoint
    rw [if_neg (show ¬ (cp = 34) by omega), if_neg (show ¬ (cp = 92) by omega),
      if_neg (show ¬ (cp = 8) by omega), if_neg (show ¬ (cp = 12) by omega),
      if_neg (show ¬ (cp = 10) by omega), if_neg (show ¬ (cp = 13) by omega),
      if_neg (show ¬ (cp = 9) by omega), if_neg (show ¬ (cp = 11) by omega),
      if_neg (show ¬ (cp < 0x1f) by omega), if_neg (show ¬ (cp < 0x80) by omega),
      if_neg h3]
  simp only [if_neg (show ¬ (0xf0 + cp / 262144 = 34) by omega),
    if_neg (show ¬ (0xf0 + cp / 262144 = 92) by omega),
    if_neg (show ¬ (0xf0 + cp / 262144 = 8) by omega),
    if_neg (show ¬ (0xf0 + cp / 262144 = 12) by omega),
    if_neg (show ¬ (0xf0 + cp / 262144 = 10) by omega),
    if_neg (show ¬ (0xf0 + cp / 262144 = 13) by omega),
    if_neg (show ¬ (0xf0 + cp / 262144 = 9) by omega),
    if_neg (show ¬ (0xf0 + cp / 262144 = 11) by omega),
    hclass, hcont, hescape, hemit]
  rfl

/-- One step of the escaping loop on the UTF-8 encoding of a single code
point: it consumes the whole sequence and emits `escapeCodePoint cp`. -/
theorem esc_step (fuel : Nat) (cp : Nat) (rest : Bytes) (hcp : cp ≤ 0x10ffff) :
    convertToEscapedStringLoop (fuel + 1) (utf8Encode cp ++ rest) =
      (convertToEscapedStringLoop fuel rest).map (fun r => escapeCodePoint cp ++ r) := by
  by_cases h1 : cp < 0x80
  · exact esc_step_ascii fuel cp rest h1
  · by_cases h2 : cp < 0x800
    · exact esc_step_two fuel cp rest h1 h2
    · by_cases h3 : cp < 0x10000
      · exact esc_step_three fuel cp rest h2 h3
      · exact esc_step_four fuel cp rest h3 hcp

theorem utf8Encode_ne_nil (cp : Nat) : utf8Encode cp ≠ [] := by
  unfold utf8Encode
  split_ifs <;> simp

theorem length_le_flatten_utf8 (cps : List Nat) :
    cps.length ≤ ((cps.map utf8Encode).flatten).length := by
  induction cps with
  | nil => simp
  | cons cp cps ih =>
    simp only [List.map_cons, List.flatten_cons, List.length_cons, List.length_append]
    have h1 : 1 ≤ (utf8Encode cp).length :=
      Nat.succ_le_of_lt (List.length_pos.mpr (utf8Encode_ne_nil cp))
    omega

theorem escLoop_flatten (cps : List Nat) : ∀ fuel, (∀ cp ∈ cps, cp ≤ 0x10ffff) →
    cps.length ≤ fuel →
    convertToEscapedStringLoop fuel ((cps.map utf8Encode).flatten) =
      .ok ((cps.map escapeCodePoint).flatten) := by
  induction cps with
  | nil =>
    intro fuel _ _
    cases fuel <;> simp [convertToEscapedStringLoop]
  | cons cp cps ih =>
    intro fuel hall hlen
    match fuel, hlen with
    | fuel + 1, hlen =>
      simp only [List.map_cons, List.flatten_cons]
      rw [esc_step fuel cp _ (hall cp (by simp)),
        ih fuel (fun c hc => hall c (by simp [hc])) (by simpa using hlen)]
      rfl

/-- C7 (counterexample to the claim's wording): the byte `0x1f` is a
code point that is not a printable 7-bit character, yet the escaper
emits it as a single raw byte, not as the `\u001f` the claim
predicts. -/
theorem c7_counterexample :
    ConvertToEscapedString (utf8Encode 0x1f) = .ok [0x1f] ∧
    escapeCodePointClaimed 0x1f = asciiBytes "\\u001f" ∧
    escapeCodePointClaimed 0x1f ≠ [0x1f] :=
  ⟨rfl, rfl, by decide⟩

/-- C7 (amended): on the UTF-8 encoding of any sequence of code points
`≤ 0x10FFFF`, the escaper emits per code point: the eight named escapes;
`\uXXXX` for other code points below `0x1f`; a raw byte for
`0x1f-0x7f`; `\uXXXX` for `0x80-0xFFFF`; and a UTF-16 surrogate pair,
as two `\uXXXX` groups, for code points `≥ 0x10000`. -/
theorem c7_escaper_emits_codepoints (cps : List Nat)
    (hall : ∀ cp ∈ cps, cp ≤ 0x10ffff) :
    ConvertToEscapedString ((cps.map utf8Encode).flatten) =
      .ok ((cps.map escapeCodePoint).flatten) :=
  escLoop_flatten cps (((cps.map utf8Encode).flatten).length + 1) hall
    (Nat.le_succ_of_le (length_le_flatten_utf8 cps))

/-- Closed witness for `c7_escaper_emits_codepoints`: the code points
`A`, `0x1f`, `0x07`, `€` (U+20AC) and `😀` (U+1F600). -/
theorem c7_escaper_witness :
    (∀ cp ∈ [65, 0x1f, 0x07, 0x20ac, 0x1f600], cp ≤ 0x10ffff) ∧
    ConvertToEscapedString (([65, 0x1f, 0x07, 0x20ac, 0x1f600].map utf8Encode).flatten) =
      .ok (([65, 0x1f, 0x07, 0x20ac, 0x1f600].map escapeCodePoint).flatten) :=
  ⟨by decide, c7_escaper_emits_codepoints [65, 0x1f, 0x07, 0x20ac, 0x1f600] (by decide)⟩

end HavJSONModel

namespace HavJSONModel

theorem bytesLt_irrefl (a : Bytes) : bytesLt a a = false := by
  induction a with
  | nil => rfl
  | cons x xs ih => simp [bytesLt, ih]

theorem bytesLt_total (a : Bytes) : ∀ b : Bytes,
    bytesLt a b = true ∨ a = b ∨ bytesLt b a = true := by
  induction a with
  | nil =>
    intro b
    cases b with
    | nil => right; left; rfl
    | cons y ys => left; rfl
  | cons x xs ih =>
    intro b
    cases b with
    | nil => right; right; rfl
    | cons y ys =>
      rcases Nat.lt_trichotomy x y with h | h | h
      · left; simp [bytesLt, h]
      · subst h
        rcases ih ys with h2 | h2 | h2
        · left; simp [bytesLt, h2]
        · right; left; rw [h2]
        · right; right; simp [bytesLt, h2]
      · right; right; simp [bytesLt, h, Nat.not_lt.mpr (Nat.le_of_lt h)]

theorem bytesLt_trans (a : Bytes) : ∀ b c : Bytes,
    bytesLt a b = true → bytesLt b c = true → bytesLt a c = true := by
  induction a with
  | nil =>
    intro b c hab hbc
    cases c with
    | nil =>
      cases b with
      | nil => exact hab
      | cons y ys => simp [bytesLt] at hbc
    | cons z zs => rfl
  | cons x xs ih =>
    intro b c hab hbc
    cases b with
    | nil => simp [bytesLt] at hab
    | cons y ys =>
      cases c with
      | nil => simp [bytesLt] at hbc
      | cons z zs =>
        simp only [bytesLt] at hab hbc ⊢
        by_cases hxy : x < y
        · by_cases hyz : y < z
          · simp [Nat.lt_trans hxy hyz]
          · by_cases hzy : z < y
            · simp [hyz, hzy] at hbc
            · have : y = z := by omega
              subst this
              simp [hxy]
        · by_cases hyx : y < x
          · simp [hxy, hyx] at hab
          · have hexy : x = y := by omega
            subst hexy
            by_cases hyz : x < z
            · simp [hyz]
            · by_cases hzy : z < x
              · simp [hyz, hzy] at hbc
              · have : x = z := by omega
                subst this
                simp [hyz, hzy] at hab hbc ⊢
                exact ih ys zs hab hbc

theorem bytesLt_ne (a b : Bytes) (h : bytesLt a b = true) : a ≠ b := by
  intro he
  subst he
  rw [bytesLt_irrefl] at h
  exact Bool.false_ne_true h

/-- `entriesSorted` on a cons, in terms of `keyLB`. -/
theorem entriesSorted_cons_iff (k : Bytes) (v : havJSONData)
    (rest : List (Bytes × havJSONData)) :
    entriesSorted ((k, v) :: rest) = true ↔
      objsSorted v = true ∧ keyLB k rest = true ∧ entriesSorted rest = true := by
  cases rest with
  | nil => simp [entriesSorted, keyLB]
  | cons e r =>
    match e with
    | (k2, v2) =>
      simp [entriesSorted, keyLB, Bool.and_assoc]
      tauto

theorem keyLB_mapInsert (k0 k : Bytes) (v : havJSONData)
    (m : List (Bytes × havJSONData)) (hm : keyLB k0 m = true) (hk : bytesLt k0 k = true) :
    keyLB k0 (mapInsert k v m) = true := by
  cases m with
  | nil => simpa [mapInsert, keyLB]
  | cons e r =>
    match e with
    | (k2, v2) =>
      by_cases h1 : bytesLt k k2 = true
      · simpa [mapInsert, h1, keyLB]
      · by_cases h2 : k = k2
        · simpa [mapInsert, h1, h2, keyLB, bytesLt_irrefl] using hm
        · simpa [mapInsert, h1, h2, keyLB] using hm

theorem entriesSorted_mapInsert (k : Bytes) (v : havJSONData)
    (m : List (Bytes × havJSONData)) :
    entriesSorted m = true → objsSorted v = true →
    entriesSorted (mapInsert k v m) = true := by
  induction m with
  | nil =>
    intro _ hv
    simpa [mapInsert, entriesSorted]
  | cons e r ih =>
    intro hm hv
    match e with
    | (k2, v2) =>
      rw [entriesSorted_cons_iff] at hm
      obtain ⟨hv2, hlb, hr⟩ := hm
      by_cases h1 : bytesLt k k2 = true
      · rw [show mapInsert k v ((k2, v2) :: r) = (k, v) :: (k2, v2) :: r by
          simp [mapInsert, h1]]
        rw [entriesSorted_cons_iff]
        refine ⟨hv, by simpa [keyLB], by rw [entriesSorted_cons_iff]; exact ⟨hv2, hlb, hr⟩⟩
      · by_cases h2 : k = k2
        · rw [show mapInsert k v ((k2, v2) :: r) = (k2, v2) :: r by
            simp [mapInsert, h1, h2, bytesLt_irrefl]]
          rw [entriesSorted_cons_iff]
          exact ⟨hv2, hlb, hr⟩
        · rw [show mapInsert k v ((k2, v2) :: r) = (k2, v2) :: mapInsert k v r by
            simp [mapInsert, h1, h2]]
          have hk2k : bytesLt k2 k = true := by
            rcases bytesLt_total k k2 with h | h | h
            · exact absurd h h1
            · exact absurd h h2
            · exact h
          rw [entriesSorted_cons_iff]
          exact ⟨hv2, keyLB_mapInsert k2 k v r hlb hk2k, ih hr hv⟩

theorem keyLB_mapReplace (k0 k : Bytes) (v : havJSONData)
    (m : List (Bytes × havJSONData)) (hm : keyLB k0 m = true) :
    keyLB k0 (mapReplace k v m) = true := by
  cases m with
  | nil => simp [mapReplace, keyLB]
  | cons e r =>
    match e with
    | (k2, v2) =>
      by_cases h2 : k = k2
      · simpa [mapReplace, h2, keyLB] using hm
      · simpa [mapReplace, h2, keyLB] using hm

theorem entriesSorted_mapReplace (k : Bytes) (v : havJSONData)
    (m : List (Bytes × havJSONData)) :
    entriesSorted m = true → objsSorted v = true →
    entriesSorted (mapReplace k v m) = true := by
  induction m with
  | nil => intro _ _; simpa [mapReplace]
  | cons e r ih =>
    intro hm hv
    match e with
    | (k2, v2) =>
      rw [entriesSorted_cons_iff] at hm
      obtain ⟨hv2, hlb, hr⟩ := hm
      by_cases h2 : k = k2
      · rw [show mapReplace k v ((k2, v2) :: r) = (k2, v) :: r by simp [mapReplace, h2]]
        rw [entriesSorted_cons_iff]
        exact ⟨hv, hlb, hr⟩
      · rw [show mapReplace k v ((k2, v2) :: r) = (k2, v2) :: mapReplace k v r by
          simp [mapReplace, h2]]
        rw [entriesSorted_cons_iff]
        exact ⟨hv2, keyLB_mapReplace k2 k v r hlb, ih hr hv⟩

theorem mapFindVal_sorted (k : Bytes) (m : List (Bytes × havJSONData)) :
    ∀ v, entriesSorted m = true → mapFindVal k m = some v → objsSorted v = true := by
  induction m with
  | nil => intro v _ h; simp [mapFindVal] at h
  | cons e r ih =>
    intro v hm hf
    match e with
    | (k2, v2) =>
      rw [entriesSorted_cons_iff] at hm
      obtain ⟨hv2, _, hr⟩ := hm
      by_cases h2 : k = k2
      · simp [mapFindVal, h2] at hf
        rwa [← hf]
      · simp [mapFindVal, h2] at hf
        exact ih v hr hf

theorem listSorted_append (xs ys : List havJSONData) :
    listSorted (xs ++ ys) = (listSorted xs && listSorted ys) := by
  induction xs with
  | nil => simp [listSorted]
  | cons d rest ih => simp [listSorted, ih, Bool.and_assoc]

theorem framesSorted_cons (f : PFrame) (rest : List PFrame) :
    framesSorted (f :: rest) = (objsSorted f.node && framesSorted rest) := by
  simp [framesSorted]

theorem materializeInto_sorted (f : PFrame) (parent : havJSONData)
    (hf : objsSorted f.node = true) (hp : objsSorted parent = true) :
    objsSorted (materializeInto f parent) = true := by
  match f, parent with
  | ⟨node, .isRoot⟩, p => simpa [materializeInto]
  | ⟨node, .intoArray⟩, .mk t v =>
    cases v <;>
      simp_all [materializeInto, objsSorted, varSorted, listSorted_append, listSorted]
  | ⟨node, .intoObjectNew k⟩, .mk t v =>
    cases v <;> simp_all [materializeInto, objsSorted, varSorted]
    exact entriesSorted_mapInsert k node _ (by assumption) (by simpa [objsSorted] using hf)
  | ⟨node, .intoObjectReplace k⟩, .mk t v =>
    cases v <;> simp_all [materializeInto, objsSorted, varSorted]
    exact entriesSorted_mapReplace k node _ (by assumption) (by simpa [objsSorted] using hf)

theorem materializeFold_sorted (rest : List PFrame) : ∀ f : PFrame,
    objsSorted f.node = true → framesSorted rest = true →
    objsSorted (materializeFold f rest) = true := by
  induction rest with
  | nil => intro f hf _; simpa [materializeFold]
  | cons g r ih =>
    intro f hf hrest
    rw [framesSorted_cons, Bool.and_eq_true] at hrest
    rw [materializeFold]
    exact ih _ (materializeInto_sorted f g.node hf hrest.1) hrest.2

theorem framePop_sorted (st st' : PState) (h : framePop st = .ok st')
    (hs : stateSorted st = true) : stateSorted st' = true := by
  match st, h with
  | ⟨[f], pr⟩, h =>
    simp [framePop] at h
    simp [stateSorted, framesSorted_cons] at hs ⊢
    rw [← h]
    simpa [framesSorted] using hs.1
  | ⟨f :: g :: rest, pr⟩, h =>
    simp [framePop] at h
    simp [stateSorted, framesSorted_cons] at hs ⊢
    obtain ⟨⟨hf, hg, hrest⟩, hpr⟩ := hs
    rw [← h]
    simp [framesSorted_cons]
    exact ⟨⟨materializeInto_sorted f g.node hf hg, hrest⟩, hpr⟩

theorem insertScalarIntoObject_sorted (st : PState) (key : Bytes) (value : havJSONData)
    (st' : PState) (h : insertScalarIntoObject st key value = .ok st')
    (hs : stateSorted st = true) (hv : objsSorted value = true) :
    stateSorted st' = true := by
  match st, h with
  | ⟨⟨.mk t v, reint⟩ :: below, pr⟩, h =>
    by_cases ht : t = havJSONDataType.Object
    · subst ht
      cases v with
      | vObject m =>
        simp only [insertScalarIntoObject, havJSONData.getType] at h
        rw [if_pos trivial] at h
        simp only [Except.ok.injEq] at h
        simp [stateSorted, framesSorted_cons, objsSorted] at hs ⊢
        obtain ⟨⟨hm, hbelow⟩, hpr⟩ := hs
        rw [← h]
        simp [framesSorted_cons, objsSorted]
        exact ⟨⟨entriesSorted_mapInsert key value m hm hv, hbelow⟩, hpr⟩
      | vBool b => simp [insertScalarIntoObject, havJSONData.getType] at h
      | vInt n => simp [insertScalarIntoObject, havJSONData.getType] at h
      | vUInt n => simp [insertScalarIntoObject, havJSONData.getType] at h
      | vLong n => simp [insertScalarIntoObject, havJSONData.getType] at h
      | vULong n => simp [insertScalarIntoObject, havJSONData.getType] at h
      | vInt64 n => simp [insertScalarIntoObject, havJSONData.getType] at h
      | vUInt64 n => simp [insertScalarIntoObject, havJSONData.getType] at h
      | vDouble d => simp [insertScalarIntoObject, havJSONData.getType] at h
      | vString sVal => simp [insertScalarIntoObject, havJSONData.getType] at h
      | vArray items => simp [insertScalarIntoObject, havJSONData.getType] at h
    · simp [insertScalarIntoObject, havJSONData.getType, ht] at h

theorem openChildInObject_sorted (st : PState) (key : Bytes) (child : havJSONData)
    (st' : PState) (h : openChildInObject st key child = .ok st')
    (hs : stateSorted st = true) (hc : objsSorted child = true) :
    stateSorted st' = true := by
  match st, h with
  | ⟨⟨.mk t v, reint⟩ :: below, pr⟩, h =>
    by_cases ht : t = havJSONDataType.Object
    · subst ht
      cases v with
      | vObject m =>
        simp only [openChildInObject, havJSONData.getType] at h
        rw [if_pos trivial] at h
        simp [stateSorted, framesSorted_cons, objsSorted] at hs ⊢
        obtain ⟨⟨hm, hbelow⟩, hpr⟩ := hs
        match hfind : mapFindVal key m with
        | some existing =>
          rw [hfind] at h
          simp only [Except.ok.injEq] at h
          rw [← h]
          simp [framesSorted_cons, objsSorted]
          exact ⟨⟨mapFindVal_sorted key m existing hm hfind, hm, hbelow⟩, hpr⟩
        | none =>
          rw [hfind] at h
          simp only [Except.ok.injEq] at h
          rw [← h]
          simp [framesSorted_cons, objsSorted]
          exact ⟨⟨hc, hm, hbelow⟩, hpr⟩
      | vBool b => simp [openChildInObject, havJSONData.getType] at h
      | vInt n => simp [openChildInObject, havJSONData.getType] at h
      | vUInt n => simp [openChildInObject, havJSONData.getType] at h
      | vLong n => simp [openChildInObject, havJSONData.getType] at h
      | vULong n => simp [openChildInObject, havJSONData.getType] at h
      | vInt64 n => simp [openChildInObject, havJSONData.getType] at h
      | vUInt64 n => simp [openChildInObject, havJSONData.getType] at h
      | vDouble d => simp [openChildInObject, havJSONData.getType] at h
      | vString sVal => simp [openChildInObject, havJSONData.getType] at h
      | vArray items => simp [openChildInObject, havJSONData.getType] at h
    · simp [openChildInObject, havJSONData.getType, ht] at h

theorem appendScalarIntoArray_sorted (st : PState) (value : havJSONData)
    (st' : PState) (h : appendScalarIntoArray st value = .ok st')
    (hs : stateSorted st = true) (hv : objsSorted value = true) :
    stateSorted st' = true := by
  match st, h with
  | ⟨⟨.mk t v, reint⟩ :: below, pr⟩, h =>
    by_cases ht : t = havJSONDataType.Array
    · subst ht
      cases v with
      | vArray items =>
        simp only [appendScalarIntoArray, havJSONData.getType] at h
        rw [if_pos trivial] at h
        simp only [Except.ok.injEq] at h
        simp [stateSorted, framesSorted_cons, objsSorted, varSorted] at hs ⊢
        obtain ⟨⟨hitems, hbelow⟩, hpr⟩ := hs
        rw [← h]
        simp [framesSorted_cons, objsSorted, varSorted, listSorted_append, listSorted]
        exact ⟨⟨⟨hitems, hv⟩, hbelow⟩, hpr⟩
      | vBool b => simp [appendScalarIntoArray, havJSONData.getType] at h
      | vInt n => simp [appendScalarIntoArray, havJSONData.getType] at h
      | vUInt n => simp [appendScalarIntoArray, havJSONData.getType] at h
      | vLong n => simp [appendScalarIntoArray, havJSONData.getType] at h
      | vULong n => simp [appendScalarIntoArray, havJSONData.getType] at h
      | vInt64 n => simp [appendScalarIntoArray, havJSONData.getType] at h
      | vUInt64 n => simp [appendScalarIntoArray, havJSONData.getType] at h
      | vDouble d => simp [appendScalarIntoArray, havJSONData.getType] at h
      | vString sVal => simp [appendScalarIntoArray, havJSONData.getType] at h
      | vObject m => simp [appendScalarIntoArray, havJSONData.getType] at h
    · simp [appendScalarIntoArray, havJSONData.getType, ht] at h

theorem tokenToData_sorted (longBits : Nat) (dbl : DoubleModel) (tok : havJSONTokenValue)
    (d : havJSONData) (h : tokenToData longBits dbl tok = .ok d) : objsSorted d = true := by
  match tok with
  | ⟨t, none⟩ => simp [tokenToData] at h
  | ⟨t, some payload⟩ =>
    cases t <;> simp only [tokenToData] at h <;>
      (try split at h) <;> simp_all [objsSorted, varSorted] <;>
      (try (rw [← h]; simp [objsSorted, varSorted]))

theorem parseCommonString_sorted (longBits : Nat) (dbl : DoubleModel) (st : PState)
    (key : Bytes) (rest : List havJSONTokenValue) (b : Bool) (st2 : PState)
    (t2 : havJSONTokenValue) (dq2 : List havJSONTokenValue)
    (h : parseCommonString longBits dbl st key rest = .ok (b, st2, t2, dq2))
    (hs : stateSorted st = true) : stateSorted st2 = true := by
  match rest with
  | [] => simp [parseCommonString] at h
  | token2 :: rest2 =>
    simp only [parseCommonString] at h
    by_cases hc : token2.mToken = havJSONToken.Colon
    · rw [if_pos hc] at h
      match rest2, h with
      | [], h => simp at h
      | token3 :: rest3, h =>
        dsimp only [] at h
        by_cases hvk : isValueKindToken token3.mToken = true
        · rw [if_pos hvk] at h
          cases htd : tokenToData longBits dbl token3 with
          | error e => rw [htd] at h; simp at h
          | ok value =>
            rw [htd] at h
            try dsimp only [] at h
            cases hins : insertScalarIntoObject st key value with
            | error e => rw [hins] at h; simp [Except.map] at h
            | ok stX =>
              rw [hins] at h
              try dsimp only [] at h
              simp [Except.map] at h
              rw [← h.2.1]
              exact insertScalarIntoObject_sorted st key value stX hins hs
                (tokenToData_sorted longBits dbl token3 value htd)
        · rw [if_neg hvk] at h
          by_cases hsq : token3.mToken = havJSONToken.LeftSquareBracket
          · rw [if_pos hsq] at h
            cases hop : openChildInObject st key (.mk .Array (.vArray [])) with
            | error e => rw [hop] at h; simp [Except.map] at h
            | ok stX =>
              rw [hop] at h
              try dsimp only [] at h
              simp [Except.map] at h
              rw [← h.2.1]
              exact openChildInObject_sorted st key _ stX hop hs (by rfl)
          · rw [if_neg hsq] at h
            by_cases hcu : token3.mToken = havJSONToken.LeftCurlyBracket
            · rw [if_pos hcu] at h
              cases hop : openChildInObject st key (.mk .Object (.vObject [])) with
              | error e => rw [hop] at h; simp [Except.map] at h
              | ok stX =>
                rw [hop] at h
                try dsimp only [] at h
                simp [Except.map] at h
                rw [← h.2.1]
                exact openChildInObject_sorted st key _ stX hop hs (by rfl)
            · rw [if_neg hcu] at h
              simp at h
              rw [← h.2.1]
              exact hs
    · rw [if_neg hc] at h
      simp at h
      rw [← h.2.1]
      exact hs

theorem parseCommonValue_sorted (longBits : Nat) (dbl : DoubleModel) (processed : Bool)
    (token : havJSONTokenValue) (dq : List havJSONTokenValue) (st : PState)
    (st' : PState) (dq' : List havJSONTokenValue)
    (h : parseCommonValue longBits dbl processed token dq st = .ok (st', dq'))
    (hs : stateSorted st = true) : stateSorted st' = true := by
  simp only [parseCommonValue] at h
  by_cases hap : (!processed && isValueKindToken token.mToken) = true
  · rw [if_pos hap] at h
    cases htd : tokenToData longBits dbl token with
    | error e => rw [htd] at h; simp at h
    | ok value =>
      rw [htd] at h
      try dsimp only [] at h
      cases happ : appendScalarIntoArray st value with
      | error e => rw [happ] at h; simp at h
      | ok stX =>
        rw [happ] at h
        try dsimp only [] at h
        match dq, h with
        | [], h => simp at h
        | _ :: dqRest, h =>
          simp at h
          rw [← h.1]
          exact appendScalarIntoArray_sorted st value stX happ hs
            (tokenToData_sorted longBits dbl token value htd)
  · rw [if_neg hap] at h
    match dq, h with
    | [], h => simp at h
    | _ :: dqRest, h =>
      simp at h
      rw [← h.1]
      exact hs

theorem parseCommonAfterPop_sorted (longBits : Nat) (dbl : DoubleModel)
    (token : havJSONTokenValue) (rest : List havJSONTokenValue) (st : PState)
    (st' : PState) (dq' : List havJSONTokenValue)
    (h : parseCommonAfterPop longBits dbl token rest st = .ok (st', dq'))
    (hs : stateSorted st = true) : stateSorted st' = true := by
  simp only [parseCommonAfterPop] at h
  by_cases hstr : token.mToken = havJSONToken.String
  · rw [if_pos hstr] at h
    cases hval : token.mValue with
    | none => rw [hval] at h; simp at h
    | some key =>
      rw [hval] at h
      try dsimp only [] at h
      cases hpcs : parseCommonString longBits dbl st key rest with
      | error e => rw [hpcs] at h; simp at h
      | ok quad =>
        rw [hpcs] at h
        try dsimp only [] at h
        match quad, h with
        | (b, st2, t2, dq2), h =>
          exact parseCommonValue_sorted longBits dbl b t2 dq2 st2 st' dq' h
            (parseCommonString_sorted longBits dbl st key rest b st2 t2 dq2 hpcs hs)
  · rw [if_neg hstr] at h
    exact parseCommonValue_sorted longBits dbl false token (token :: rest) st st' dq' h hs

theorem parseCommon_sorted (longBits : Nat) (dbl : DoubleModel)
    (dq : List havJSONTokenValue) (st : PState)
    (st' : PState) (dq' : List havJSONTokenValue)
    (h : parseCommon longBits dbl dq st = .ok (st', dq'))
    (hs : stateSorted st = true) : stateSorted st' = true := by
  match dq with
  | [] => simp [parseCommon] at h
  | token :: rest =>
    simp only [parseCommon] at h
    by_cases hbr : (token.mToken = havJSONToken.RightCurlyBracket ||
        token.mToken = havJSONToken.RightSquareBracket) = true
    · rw [if_pos hbr] at h
      cases hfp : framePop st with
      | error e => rw [hfp] at h; simp at h
      | ok st1 =>
        rw [hfp] at h
        try dsimp only [] at h
        exact parseCommonAfterPop_sorted longBits dbl token rest st1 st' dq' h
          (framePop_sorted st st1 hfp hs)
    · rw [if_neg hbr] at h
      exact parseCommonAfterPop_sorted longBits dbl token rest st st' dq' h hs

theorem mk_get_eta (r : havJSONData) : havJSONData.mk r.getType r.getValue = r := by
  cases r with
  | mk t v => rfl

theorem materializeAll_sorted (st : PState) (root : havJSONData)
    (hs : stateSorted st = true)
    (h : materializeAll st.frames st.poppedRoot = some root) : objsSorted root = true := by
  match st, hs, h with
  | ⟨[], pr⟩, hs, h =>
    simp [materializeAll] at h
    simp [stateSorted, framesSorted] at hs
    rw [h] at hs
    exact hs
  | ⟨f :: rest, pr⟩, hs, h =>
    simp [materializeAll] at h
    simp [stateSorted, framesSorted_cons] at hs
    rw [← h]
    exact materializeFold_sorted rest f hs.1.1 hs.1.2

theorem openContainer_sorted (st : PState) (node : havJSONData) (st1 : PState)
    (h : openContainer st node = .ok st1)
    (hs : stateSorted st = true) (hn : objsSorted node = true) :
    stateSorted st1 = true := by
  simp only [openContainer] at h
  by_cases hre : st.rootExists = true
  · rw [if_pos hre] at h
    match hfr : st.frames, h with
    | top :: others, h =>
      dsimp only [] at h
      by_cases hta : top.node.getType = havJSONDataType.Array
      · rw [if_pos hta] at h
        simp only [Except.ok.injEq] at h
        rw [← h]
        simp [stateSorted, hfr, framesSorted_cons] at hs ⊢
        exact ⟨⟨hn, hs.1.1, hs.1.2⟩, hs.2⟩
      · rw [if_neg hta] at h
        simp only [Except.ok.injEq] at h
        rw [← h]
        exact hs
  · rw [if_neg hre] at h
    simp only [Except.ok.injEq] at h
    rw [← h]
    simp [stateSorted, framesSorted]
    exact hn

theorem parseLoop_sorted (longBits : Nat) (dbl : DoubleModel) (fuel : Nat) :
    ∀ (dq : List havJSONTokenValue) (st : PState) (v : havJSONData),
    stateSorted st = true → parseLoop longBits dbl fuel dq st = .ok (some v) →
    objsSorted v = true := by
  induction fuel with
  | zero =>
    intro dq st v hs h
    match dq with
    | [] =>
      simp only [parseLoop] at h
      cases hma : materializeAll st.frames st.poppedRoot with
      | none => rw [hma] at h; simp at h
      | some root =>
        rw [hma] at h
        simp at h
        rw [← h, mk_get_eta]
        exact materializeAll_sorted st root hs hma
    | _ :: _ => simp [parseLoop] at h
  | succ fuel ih =>
    intro dq st v hs h
    match dq with
    | [] =>
      simp only [parseLoop] at h
      cases hma : materializeAll st.frames st.poppedRoot with
      | none => rw [hma] at h; simp at h
      | some root =>
        rw [hma] at h
        simp at h
        rw [← h, mk_get_eta]
        exact materializeAll_sorted st root hs hma
    | token :: restTokens =>
      simp only [parseLoop] at h
      by_cases hcm : token.mToken = havJSONToken.Comma
      · rw [if_pos hcm] at h
        exact ih restTokens st v hs h
      · rw [if_neg hcm] at h
        by_cases hlc : token.mToken = havJSONToken.LeftCurlyBracket
        · rw [if_pos hlc] at h
          cases hoc : openContainer st (.mk .Object (.vObject [])) with
          | error e => rw [hoc] at h; simp at h
          | ok st1 =>
            rw [hoc] at h
            try dsimp only [] at h
            have hs1 : stateSorted st1 = true :=
              openContainer_sorted st _ st1 hoc hs (by rfl)
            match restTokens, h with
            | t1 :: more, h =>
              dsimp only [] at h
              by_cases hna : (!allowedAfterLeftCurly t1.mToken) = true
              · rw [if_pos hna] at h
                simp at h
              · rw [if_neg hna] at h
                by_cases hbk : (t1.mToken = havJSONToken.LeftCurlyBracket ||
                    t1.mToken = havJSONToken.LeftSquareBracket) = true
                · rw [if_pos hbk] at h
                  exact ih (t1 :: more) st1 v hs1 h
                · rw [if_neg hbk] at h
                  cases hpc : parseCommon longBits dbl (t1 :: more) st1 with
                  | error e => rw [hpc] at h; simp at h
                  | ok pair =>
                    rw [hpc] at h
                    try dsimp only [] at h
                    match pair, h with
                    | (st2, dqRest), h =>
                      exact ih dqRest st2 v
                        (parseCommon_sorted longBits dbl (t1 :: more) st1 st2 dqRest hpc hs1) h
        · rw [if_neg hlc] at h
          by_cases hls : token.mToken = havJSONToken.LeftSquareBracket
          · rw [if_pos hls] at h
            cases hoc : openContainer st (.mk .Array (.vArray [])) with
            | error e => rw [hoc] at h; simp at h
            | ok st1 =>
              rw [hoc] at h
              try dsimp only [] at h
              have hs1 : stateSorted st1 = true :=
                openContainer_sorted st _ st1 hoc hs (by rfl)
              match restTokens, h with
              | t1 :: more, h =>
                dsimp only [] at h
                by_cases hna : (!allowedAfterLeftSquare t1.mToken) = true
                · rw [if_pos hna] at h
                  simp at h
                · rw [if_neg hna] at h
                  by_cases hbk : (t1.mToken = havJSONToken.LeftSquareBracket ||
                      t1.mToken = havJSONToken.LeftCurlyBracket) = true
                  · rw [if_pos hbk] at h
                    exact ih (t1 :: more) st1 v hs1 h
                  · rw [if_neg hbk] at h
                    cases hpc : parseCommon longBits dbl (t1 :: more) st1 with
                    | error e => rw [hpc] at h; simp at h
                    | ok pair =>
                      rw [hpc] at h
                      try dsimp only [] at h
                      match pair, h with
                      | (st2, dqRest), h =>
                        exact ih dqRest st2 v
                          (parseCommon_sorted longBits dbl (t1 :: more) st1 st2 dqRest hpc hs1) h
          · rw [if_neg hls] at h
            cases hpc : parseCommon longBits dbl (token :: restTokens) st with
            | error e => rw [hpc] at h; simp at h
            | ok pair =>
              rw [hpc] at h
              try dsimp only [] at h
              match pair, h with
              | (st2, dqRest), h =>
                exact ih dqRest st2 v
                  (parseCommon_sorted longBits dbl (token :: restTokens) st st2 dqRest hpc hs) h

theorem ParseContent_sorted (longBits : Nat) (dbl : DoubleModel) (input : Bytes)
    (v : havJSONData) (h : ParseContent longBits dbl input = .ok (some v)) :
    objsSorted v = true := by
  simp only [ParseContent] at h
  cases htk : TokenizationStr longBits dbl input with
  | error e => rw [htk] at h; simp at h
  | ok tokens =>
    rw [htk] at h
    try dsimp only [] at h
    split at h
    · simp only [ParseJSONContents] at h
      match tokens, h with
      | [], h => simp at h
      | t0 :: ts, h =>
        dsimp only [] at h
        split at h
        · simp at h
        · exact parseLoop_sorted longBits dbl ((t0 :: ts).length + 1) (t0 :: ts) ⟨[], none⟩ v
            (by rfl) h
    · simp at h

theorem keyLB_all (m : List (Bytes × havJSONData)) : ∀ k, keyLB k m = true →
    entriesSorted m = true → ∀ b ∈ m.map Prod.fst, bytesLt k b = true := by
  induction m with
  | nil => intro k _ _ b hb; simp at hb
  | cons e r ih =>
    intro k hlb hm b hb
    match e with
    | (k2, v2) =>
      rw [entriesSorted_cons_iff] at hm
      simp only [keyLB] at hlb
      simp at hb
      rcases hb with hb | hb
      · rwa [← hb] at hlb
      · exact bytesLt_trans k k2 b hlb (ih k2 hm.2.1 hm.2.2 b (by simpa using hb))

theorem entriesSorted_pairwise (m : List (Bytes × havJSONData))
    (hm : entriesSorted m = true) :
    List.Pairwise (fun a b => bytesLt a b = true) (m.map Prod.fst) := by
  induction m with
  | nil => simp
  | cons e r ih =>
    match e with
    | (k, v) =>
      rw [entriesSorted_cons_iff] at hm
      simp only [List.map_cons, List.pairwise_cons]
      exact ⟨fun b hb => keyLB_all r k hm.2.1 hm.2.2 b hb, ih hm.2.2⟩

theorem entriesSorted_nodup (m : List (Bytes × havJSONData))
    (hm : entriesSorted m = true) : (m.map Prod.fst).Nodup :=
  (entriesSorted_pairwise m hm).imp (fun h => bytesLt_ne _ _ h)

set_option maxHeartbeats 2000000 in
/-- Transparency of value token streams for `topLevelKeys`, by strong
induction on the size of the value: a value's stream contributes no
`String` tokens at its own bracket depth (object keys inside it sit
strictly deeper). -/
theorem tok_transparent_all (dbl : DoubleModel) : ∀ n : Nat,
    (∀ item : havJSONData, sizeOf item ≤ n → ∀ ts, tokenizeOne dbl item = .ok ts →
      ∀ rest d, topLevelKeys (ts ++ rest) d = topLevelKeys rest d) ∧
    (∀ items : List havJSONData, sizeOf items ≤ n → ∀ isF ts,
      tokenizeArrayItems dbl items isF = .ok ts →
      ∀ rest d, topLevelKeys (ts ++ rest) d = topLevelKeys rest d) ∧
    (∀ entries : List (Bytes × havJSONData), sizeOf entries ≤ n → ∀ isF ts,
      tokenizeObjectItems dbl entries isF = .ok ts →
      ∀ rest d, topLevelKeys (ts ++ rest) (d + 1) = topLevelKeys rest (d + 1)) := by
  intro n
  induction n using Nat.strong_induction_on with
  | _ n ih =>
    refine ⟨?_, ?_, ?_⟩
    · intro item hsz ts h rest d
      obtain ⟨t, v⟩ := item
      cases t <;> cases v
      case Array.vArray items =>
        simp only [tokenizeOne] at h
        cases hta : tokenizeArrayItems dbl items true with
        | error e => rw [hta] at h; simp [Except.map] at h
        | ok ts1 =>
          rw [hta] at h
          simp [Except.map] at h
          subst h
          simp only [List.append_eq, List.cons_append, List.nil_append, topLevelKeys,
            List.append_assoc]
          rw [(ih (sizeOf items) (by simp at hsz; omega)).2.1 items le_rfl true ts1 hta
            (⟨.RightSquareBracket, none⟩ :: rest) (d + 1)]
          simp [topLevelKeys]
      case Object.vObject entries =>
        simp only [tokenizeOne] at h
        cases hto : tokenizeObjectItems dbl entries true with
        | error e => rw [hto] at h; simp [Except.map] at h
        | ok ts1 =>
          rw [hto] at h
          simp [Except.map] at h
          subst h
          simp only [List.append_eq, List.cons_append, List.nil_append, topLevelKeys,
            List.append_assoc]
          rw [(ih (sizeOf entries) (by simp at hsz; omega)).2.2 entries le_rfl true ts1 hto
            (⟨.RightCurlyBracket, none⟩ :: rest) d]
          simp [topLevelKeys]
      all_goals
        first
        | (simp only [tokenizeOne, Except.ok.injEq] at h
           subst h
           simp [topLevelKeys])
        | (simp [tokenizeOne] at h)
    · intro items hsz isF ts h rest d
      match items with
      | [] =>
        simp only [tokenizeArrayItems, Except.ok.injEq] at h
        subst h
        simp
      | item :: more =>
        simp only [tokenizeArrayItems] at h
        cases h1 : tokenizeOne dbl item with
        | error e => rw [h1] at h; simp at h
        | ok ts1 =>
          rw [h1] at h
          dsimp only [] at h
          cases h2 : tokenizeArrayItems dbl more false with
          | error e => rw [h2] at h; simp at h
          | ok ts2 =>
            rw [h2] at h
            dsimp only [] at h
            simp only [Except.ok.injEq] at h
            subst h
            cases isF <;> simp only [List.append_eq, List.append_assoc, if_true, if_false,
              List.nil_append, List.cons_append, topLevelKeys] <;>
              rw [(ih (sizeOf item) (by simp at hsz; omega)).1 item le_rfl ts1 h1
                  (ts2 ++ rest) d,
                (ih (sizeOf more) (by simp at hsz; omega)).2.1 more le_rfl false ts2 h2 rest d]
    · intro entries hsz isF ts h rest d
      match entries with
      | [] =>
        simp only [tokenizeObjectItems, Except.ok.injEq] at h
        subst h
        simp
      | (k, v) :: more =>
        simp only [tokenizeObjectItems] at h
        cases h1 : tokenizeOne dbl v with
        | error e => rw [h1] at h; simp at h
        | ok ts1 =>
          rw [h1] at h
          dsimp only [] at h
          cases h2 : tokenizeObjectItems dbl more false with
          | error e => rw [h2] at h; simp at h
          | ok ts2 =>
            rw [h2] at h
            dsimp only [] at h
            simp only [Except.ok.injEq] at h
            subst h
            cases isF <;> simp only [List.append_eq, List.append_assoc, if_true, if_false,
              List.nil_append, List.cons_append, topLevelKeys] <;>
              rw [(ih (sizeOf v) (by simp at hsz; omega)).1 v le_rfl ts1 h1
                  (ts2 ++ rest) (d + 1),
                (ih (sizeOf more) (by simp at hsz; omega)).2.2 more le_rfl false ts2 h2 rest d] <;>
              simp

/-- A value's token stream contributes no `String` tokens at its own
bracket depth. -/
theorem tokenizeOne_keys_transparent (dbl : DoubleModel) (item : havJSONData)
    (ts : List havJSONTokenValue) (h : tokenizeOne dbl item = .ok ts)
    (rest : List havJSONTokenValue) (d : Nat) :
    topLevelKeys (ts ++ rest) d = topLevelKeys rest d :=
  (tok_transparent_all dbl (sizeOf item)).1 item le_rfl ts h rest d

/-- The token stream of an object's entry loop lists the stored keys in
order at its own depth. -/
theorem tokenizeObjectItems_keys (dbl : DoubleModel)
    (entries : List (Bytes × havJSONData)) :
    ∀ isF ts, tokenizeObjectItems dbl entries isF = .ok ts →
    ∀ rest, topLevelKeys (ts ++ rest) 0 = entries.map Prod.fst ++ topLevelKeys rest 0 := by
  induction entries with
  | nil =>
    intro isF ts h rest
    simp only [tokenizeObjectItems, Except.ok.injEq] at h
    subst h
    simp
  | cons e more ih =>
    match e with
    | (k, v) =>
      intro isF ts h rest
      simp only [tokenizeObjectItems] at h
      cases h1 : tokenizeOne dbl v with
      | error e => rw [h1] at h; simp at h
      | ok ts1 =>
        rw [h1] at h
        dsimp only [] at h
        cases h2 : tokenizeObjectItems dbl more false with
        | error e => rw [h2] at h; simp at h
        | ok ts2 =>
          rw [h2] at h
          dsimp only [] at h
          simp only [Except.ok.injEq] at h
          subst h
          cases isF <;> simp only [List.append_eq, List.append_assoc, if_true, if_false,
            List.nil_append, List.cons_append, topLevelKeys, List.map_cons] <;>
            rw [tokenizeOne_keys_transparent dbl v ts1 h1 (ts2 ++ rest) 0,
              ih false ts2 h2 rest] <;>
            simp [Option.getD]

/-- `TokenizeObject` emits the stored keys, in storage order, at its own
depth. -/
theorem TokenizeObject_keys (dbl : DoubleModel) (m : List (Bytes × havJSONData))
    (ts : List havJSONTokenValue) (h : TokenizeObject dbl m = .ok ts) :
    topLevelKeys ts 0 = m.map Prod.fst := by
  simp only [TokenizeObject] at h
  cases hto : tokenizeObjectItems dbl m true with
  | error e => rw [hto] at h; simp [Except.map] at h
  | ok ts1 =>
    rw [hto] at h
    simp [Except.map] at h
    subst h
    rw [tokenizeObjectItems_keys dbl m true ts1 hto [⟨.RightCurlyBracket, none⟩]]
    simp [topLevelKeys]

theorem insertKey_sorted (d : havJSONData) (key : Bytes) (nv d' : havJSONData)
    (hd : objsSorted d = true) (hnv : objsSorted nv = true)
    (h : d.insertKey key nv = .ok d') : objsSorted d' = true := by
  match d, h with
  | .mk t v, h =>
    by_cases ht : t = havJSONDataType.Object
    · subst ht
      cases v with
      | vObject m =>
        simp only [havJSONData.insertKey] at h
        rw [if_pos trivial] at h
        simp only [Except.ok.injEq] at h
        rw [← h]
        simp only [objsSorted, varSorted]
        simp only [objsSorted, varSorted] at hd
        exact entriesSorted_mapInsert key nv m hd hnv
      | vBool b => simp [havJSONData.insertKey] at h
      | vInt n => simp [havJSONData.insertKey] at h
      | vUInt n => simp [havJSONData.insertKey] at h
      | vLong n => simp [havJSONData.insertKey] at h
      | vULong n => simp [havJSONData.insertKey] at h
      | vInt64 n => simp [havJSONData.insertKey] at h
      | vUInt64 n => simp [havJSONData.insertKey] at h
      | vDouble dv => simp [havJSONData.insertKey] at h
      | vString sv => simp [havJSONData.insertKey] at h
      | vArray items => simp [havJSONData.insertKey] at h
    · simp [havJSONData.insertKey, ht] at h

theorem remove_sorted (d : havJSONData) (key : Bytes)
    (r : havJSONData × List (Bytes × havJSONData))
    (hd : objsSorted d = true) (h : d.remove key = .ok r) : objsSorted r.1 = true := by
  match d, h with
  | .mk t v, h =>
    by_cases ht : t = havJSONDataType.Object
    · subst ht
      cases v with
      | vObject m =>
        simp only [havJSONData.remove] at h
        rw [if_pos trivial] at h
        simp only [Except.ok.injEq] at h
        rw [← h]
        exact hd
      | vBool b => simp [havJSONData.remove] at h
      | vInt n => simp [havJSONData.remove] at h
      | vUInt n => simp [havJSONData.remove] at h
      | vLong n => simp [havJSONData.remove] at h
      | vULong n => simp [havJSONData.remove] at h
      | vInt64 n => simp [havJSONData.remove] at h
      | vUInt64 n => simp [havJSONData.remove] at h
      | vDouble dv => simp [havJSONData.remove] at h
      | vString sv => simp [havJSONData.remove] at h
      | vArray items => simp [havJSONData.remove] at h
    · simp [havJSONData.remove, ht] at h

theorem clear_sorted (d : havJSONData) (hd : objsSorted d = true) :
    objsSorted (d.clear).1 = true := by
  obtain ⟨t, v⟩ := d
  cases t <;> cases v <;>
    simp_all [havJSONData.clear, objsSorted, varSorted, listSorted, entriesSorted]

/-- C8: object-key invariant.  (1) Every value the text parser (and
hence the BIN decoder, which re-parses its generated text) returns has
strictly increasing — hence unique — keys at every object node;
(2) strictly increasing keys are pairwise `bytesLt`-related and unique;
(3) the serializers emit an object's pairs in storage order: the token
stream `TokenizeObject` feeds to both the text writer and the BIN
encoder lists exactly the stored key sequence; (4) `insert`, (5)
`remove` and (6) `clear` preserve the sortedness invariant. -/
theorem c8_object_keys_sorted_and_unique :
    (∀ (longBits : Nat) (dbl : DoubleModel) (input : Bytes) (v : havJSONData),
      ParseContent longBits dbl input = .ok (some v) → objsSorted v = true) ∧
    (∀ m : List (Bytes × havJSONData), entriesSorted m = true →
      List.Pairwise (fun a b => bytesLt a b = true) (m.map Prod.fst) ∧
      (m.map Prod.fst).Nodup) ∧
    (∀ (dbl : DoubleModel) (m : List (Bytes × havJSONData)) (ts : List havJSONTokenValue),
      TokenizeObject dbl m = .ok ts → topLevelKeys ts 0 = m.map Prod.fst) ∧
    (∀ (d : havJSONData) (key : Bytes) (nv d' : havJSONData),
      objsSorted d = true → objsSorted nv = true → d.insertKey key nv = .ok d' →
      objsSorted d' = true) ∧
    (∀ (d : havJSONData) (key : Bytes) (r : havJSONData × List (Bytes × havJSONData)),
      objsSorted d = true → d.remove key = .ok r → objsSorted r.1 = true) ∧
    (∀ d : havJSONData, objsSorted d = true → objsSorted (d.clear).1 = true) :=
  ⟨ParseContent_sorted,
   fun m hm => ⟨entriesSorted_pairwise m hm, entriesSorted_nodup m hm⟩,
   TokenizeObject_keys, insertKey_sorted, remove_sorted, clear_sorted⟩

/-- Closed witness for `c8_object_keys_sorted_and_unique`: the input
`\x7b"b":true,"a":false\x7d` (keys arrive unsorted), a two-entry map, a
one-entry serialization, and insert/remove/clear on small objects. -/
theorem c8_witness :
    ParseContent 64 trivialDouble (asciiBytes "\x7b\"b\":true,\"a\":false\x7d") =
      .ok (some (.mk .Object (.vObject
        [(asciiBytes "a", .mk .Boolean (.vBool false)),
         (asciiBytes "b", .mk .Boolean (.vBool true))]))) ∧
    objsSorted (.mk .Object (.vObject
        [(asciiBytes "a", .mk .Boolean (.vBool false)),
         (asciiBytes "b", .mk .Boolean (.vBool true))])) = true ∧
    (List.Pairwise (fun a b => bytesLt a b = true)
        (([(asciiBytes "a", havJSONData.mk .Boolean (.vBool false)),
           (asciiBytes "b", havJSONData.mk .Boolean (.vBool true))]).map Prod.fst) ∧
      (([(asciiBytes "a", havJSONData.mk .Boolean (.vBool false)),
         (asciiBytes "b", havJSONData.mk .Boolean (.vBool true))]).map Prod.fst).Nodup) ∧
    topLevelKeys [⟨.String, some (asciiBytes "a")⟩, ⟨.Colon, none⟩, ⟨.Null, some []⟩,
        ⟨.RightCurlyBracket, none⟩] 0 =
      ([(asciiBytes "a", havJSONData.mk .Null (.vString []))]).map Prod.fst ∧
    objsSorted (.mk .Object (.vObject
        [(asciiBytes "k", .mk .Null (.vString []))])) = true ∧
    objsSorted ((havJSONData.mk .Object
        (.vObject [(asciiBytes "a", .mk .Null (.vString []))]),
        ([] : List (Bytes × havJSONData))).1) = true ∧
    objsSorted ((havJSONData.mk .Array (.vArray [])).clear).1 = true :=
  ⟨rfl,
   c8_object_keys_sorted_and_unique.1 64 trivialDouble
     (asciiBytes "\x7b\"b\":true,\"a\":false\x7d") _ rfl,
   c8_object_keys_sorted_and_unique.2.1
     [(asciiBytes "a", havJSONData.mk .Boolean (.vBool false)),
      (asciiBytes "b", havJSONData.mk .Boolean (.vBool true))] (by decide),
   c8_object_keys_sorted_and_unique.2.2.1 trivialDouble
     [(asciiBytes "a", havJSONData.mk .Null (.vString []))]
     [⟨.String, some (asciiBytes "a")⟩, ⟨.Colon, none⟩, ⟨.Null, some []⟩,
      ⟨.RightCurlyBracket, none⟩] rfl,
   c8_object_keys_sorted_and_unique.2.2.2.1 (.mk .Object (.vObject []))
     (asciiBytes "k") (.mk .Null (.vString [])) _ (by decide) (by decide) rfl,
   c8_object_keys_sorted_and_unique.2.2.2.2.1
     (.mk .Object (.vObject [(asciiBytes "a", .mk .Null (.vString []))]))
     (asciiBytes "a")
     (havJSONData.mk .Object (.vObject [(asciiBytes "a", .mk .Null (.vString []))]),
      ([] : List (Bytes × havJSONData))) (by decide) rfl,
   c8_object_keys_sorted_and_unique.2.2.2.2.2
     (havJSONData.mk .Array (.vArray [])) (by decide)⟩

end HavJSONModel
